import Mathlib

/-!
Verification development for the ikuncode-aimcp MCP gateway.

The Rust sources are shallowly embedded: pure functions become Lean
functions, the stream-processing loops become folds over explicit event
lists, and machine strings are modelled by Lean `String` with UTF-8 byte
length (`byteLen`, mirroring Rust `str::len`).  External library calls
(serde_json parsing/serialization, the HTTP client, the RNG) are
parameters of the embedded functions, constrained by hypotheses that state
the library facts actually used.
-/

/-- Byte length of a string, mirroring Rust `str::len` (UTF-8 bytes). -/
def byteLen (s : String) : Nat := s.utf8ByteSize

/-- Model of a `serde_json::Value`: JSON trees with integer numerics
(the embedded code never inspects numeric payloads). -/
inductive Json where
  | null : Json
  | bool (b : Bool) : Json
  | num (n : Int) : Json
  | str (s : String) : Json
  | arr (items : List Json) : Json
  | obj (fields : List (String × Json)) : Json

/-- Mirror of `serde_json::Value::get(key)` on objects (first matching key). -/
def Json.get (j : Json) (key : String) : Option Json :=
  match j with
  | .obj fields => (fields.find? (fun kv => kv.1 == key)).map (fun kv => kv.2)
  | _ => none

/-- Mirror of `Value::as_str`. -/
def Json.asStr : Json → Option String
  | .str s => some s
  | _ => none

/-- Whether the value is a JSON object (`Value::as_object` succeeds,
equivalently `from_value::<HashMap<String, Value>>` succeeds). -/
def Json.isObj : Json → Bool
  | .obj _ => true
  | _ => false

/-- Substring test, mirroring Rust `str::contains(&str)`.  Byte-level
infix search on valid UTF-8 coincides with character-level infix search
because UTF-8 is self-synchronizing. -/
def containsSub (hay pat : String) : Bool := decide (pat.data <:+: hay.data)

namespace Codex

/-- Mirror of `SandboxPolicy` in `src/tools/codex.rs`. -/
inductive SandboxPolicy where
  | ReadOnly : SandboxPolicy
  | WorkspaceWrite : SandboxPolicy
  | DangerFullAccess : SandboxPolicy
deriving DecidableEq

/-- Mirror of `SandboxPolicy::as_str`. -/
def SandboxPolicy.asStr : SandboxPolicy → String
  | .ReadOnly => "read-only"
  | .WorkspaceWrite => "workspace-write"
  | .DangerFullAccess => "danger-full-access"

/-- Mirror of `Options` in `src/tools/codex.rs` (paths as strings). -/
structure Options where
  prompt : String
  workingDir : String
  sandbox : SandboxPolicy
  sessionId : Option String
  skipGitRepoCheck : Bool
  returnAllMessages : Bool
  returnAllMessagesLimit : Option Nat
  imagePaths : List String
  model : Option String
  yolo : Bool
  profile : Option String
  timeoutSecs : Option Nat
  forceStdin : Bool

def MAX_CLI_PROMPT_LEN : Nat := 800

/-- Mirror of `SPECIAL_CHARS` in `src/tools/codex.rs` (the quote, apostrophe
and backtick characters are written via their code points). -/
def SPECIAL_CHARS : List Char :=
  ['\n', '\\', Char.ofNat 34, Char.ofNat 39, Char.ofNat 96,
   '$', '%', '^', '!', '&', '|', '<', '>', '(', ')']

/-- Mirror of `needs_stdin_mode`: `prompt.len() > MAX_CLI_PROMPT_LEN ||
prompt.contains(SPECIAL_CHARS)` where `len` counts UTF-8 bytes and
`contains(&[char])` looks for any of the listed characters. -/
def needsStdinMode (prompt : String) : Bool :=
  decide (MAX_CLI_PROMPT_LEN < byteLen prompt) ||
    prompt.data.any (fun c => SPECIAL_CHARS.contains c)

/-- Whether `run_internal` pipes the prompt over stdin
(`opts.force_stdin || needs_stdin_mode(&opts.prompt)`). -/
def useStdin (opts : Options) : Bool := opts.forceStdin || needsStdinMode opts.prompt

/-- The argv built by `run_internal` before the terminator (lines 179-208
of `src/tools/codex.rs`, non-Windows path, binary name excluded). -/
def codexArgvPre (opts : Options) : List String :=
  ["exec", "--sandbox", opts.sandbox.asStr, "--cd", opts.workingDir, "--json"]
  ++ (opts.imagePaths.foldr (fun p acc => "--image" :: p :: acc) [])
  ++ (match opts.model with | some m => ["--model", m] | none => [])
  ++ (match opts.profile with | some pr => ["--profile", pr] | none => [])
  ++ (if opts.yolo then ["--yolo"] else [])
  ++ (if opts.skipGitRepoCheck then ["--skip-git-repo-check"] else [])
  ++ (if opts.returnAllMessages then
        "--return-all-messages" ::
          (match opts.returnAllMessagesLimit with
           | some limit => ["--return-all-messages-limit", toString limit]
           | none => [])
      else [])
  ++ (match opts.sessionId with | some sid => ["resume", sid] | none => [])

/-- Full argv including the terminator and prompt handling
(lines 210-217 of `src/tools/codex.rs`). -/
def codexArgv (opts : Options) : List String :=
  codexArgvPre opts ++ (if useStdin opts then ["--", "-"] else ["--", opts.prompt])

/-- What is written to the child's stdin: the prompt when stdin is piped,
nothing when stdin is `Stdio::null()`. -/
def stdinPayload (opts : Options) : Option String :=
  if useStdin opts then some opts.prompt else none

/-- Mirror of `read_line_with_limit` (lines 77-116 of `src/tools/codex.rs`)
as a pure function over the byte stream the buffered reader would yield.
Returns the output buffer, the `bytes_read` counter, the `truncated` flag
and the bytes left unconsumed in the stream. -/
def readLineWithLimit (stream : List UInt8) (buf : List UInt8) (maxLen : Nat)
    (totalRead : Nat) (truncated : Bool) : List UInt8 × Nat × Bool × List UInt8 :=
  match stream with
  | [] => (buf, totalRead, truncated, [])
  | b :: rest =>
    let pushed := ¬ truncated ∧ buf.length < maxLen
    let buf' := if pushed then buf ++ [b] else buf
    let totalRead' := if pushed then totalRead + 1 else totalRead
    let truncated' := if pushed then truncated else true
    if b = 10 then (buf', totalRead', truncated', rest)
    else readLineWithLimit rest buf' maxLen totalRead' truncated'

/-- Entry point matching the callers (`line_buf.clear()` before each call). -/
def readLine (stream : List UInt8) (maxLen : Nat) : List UInt8 × Nat × Bool × List UInt8 :=
  readLineWithLimit stream [] maxLen 0 false

end Codex

namespace Codex

def MAX_MESSAGE_LIMIT : Nat := 50000
def DEFAULT_MESSAGE_LIMIT : Nat := 10000
def MAX_AGENT_MESSAGES_SIZE : Nat := 10 * 1024 * 1024
def MAX_ALL_MESSAGES_SIZE : Nat := 50 * 1024 * 1024
def MAX_STDERR_SIZE : Nat := 1024 * 1024
def MAX_LINE_LENGTH : Nat := 1024 * 1024

/-- The sentinel appended to `agent_messages` on truncation. -/
def AGENT_TRUNC_SENTINEL : String :=
  "\n[... Agent messages truncated due to size limit ...]"

/-- The marker appended to captured stderr on truncation (the separating
newline is pushed separately by the code). -/
def STDERR_TRUNC_MARKER : String :=
  "[... stderr truncated due to size limit ...]"

/-- Mirror of `CodexResult`. -/
structure CodexResult where
  success : Bool
  sessionId : String
  agentMessages : String
  agentMessagesTruncated : Bool
  allMessages : List Json
  allMessagesTruncated : Bool
  error : Option String
  warnings : Option String

/-- Mirror of `ValidationMode`. -/
inductive ValidationMode where
  | Full : ValidationMode
  | Skip : ValidationMode
deriving DecidableEq

/-- Mirror of `record_parse_error` (lines 465-472). -/
def recordParseError (r : CodexResult) (errMsg line : String) : CodexResult :=
  let parseMsg := "JSON parse error: " ++ errMsg ++ ". Line: " ++ line
  { r with
    success := false,
    error :=
      match r.error with
      | some existing =>
        if existing ≠ "" then some (existing ++ "\n" ++ parseMsg) else some parseMsg
      | none => some parseMsg }

/-- Mirror of `push_warning` (lines 474-485). -/
def pushWarning (existing : Option String) (warning : String) : Option String :=
  match existing with
  | some current =>
    some ((if current ≠ "" then current ++ "\n" else current) ++ warning)
  | none => some warning

def SESSION_ID_ERROR : String := "Failed to get SESSION_ID from the codex session."

def NO_AGENT_MESSAGES_WARNING : String :=
  "No agent_messages returned; enable return_all_messages or check codex output for details."

/-- Mirror of `enforce_required_fields` (lines 487-503). -/
def enforceRequiredFields (r : CodexResult) (mode : ValidationMode) : CodexResult :=
  if mode = ValidationMode.Skip then r
  else
    let r :=
      if r.sessionId = "" ∧ r.error = none then
        { r with success := false, error := some SESSION_ID_ERROR }
      else r
    if r.agentMessages = "" then
      { r with warnings := pushWarning r.warnings NO_AGENT_MESSAGES_WARNING }
    else r

/-- One result of reading and pre-classifying a stdout line of the child
process.  The JSON parse itself is `serde_json` (external), so a line
enters the model already classified: `parsed` for a line whose JSON parse
succeeded, `unparsable` for a non-empty line that failed to parse
(carrying the display of the parse error), `emptyLine` for a line that is
empty after trimming, `truncatedLine` for a line the limited reader
truncated, and `ioError` for a read error (serde error made from it). -/
inductive ReadEvent where
  | parsed (j : Json) : ReadEvent
  | unparsable (content : String) (errMsg : String) : ReadEvent
  | emptyLine : ReadEvent
  | truncatedLine : ReadEvent
  | ioError (errMsg : String) : ReadEvent

/-- Running state of the stdout loop of `run_internal`. -/
structure LoopState where
  result : CodexResult
  parseErrorSeen : Bool
  allMessagesSize : Nat

/-- Mirror of the top-level `message` fallback in the error branch
(lines 417-420). -/
def topMessageFallback (r : CodexResult) (lineData : Json) : CodexResult :=
  match (lineData.get "message").bind Json.asStr with
  | some msg => { r with error := some ("codex error: " ++ msg) }
  | none => r

/-- First block of the stdout loop body: `all_messages` collection
(lines 361-378 of `src/tools/codex.rs`).  `serSize` stands for
`serde_json::to_string(&map).map(|s| s.len()).unwrap_or(0)`. -/
def stepAllMessages (returnAllMessages : Bool) (messageLimit : Nat)
    (serSize : Json → Nat) (st : LoopState) (lineData : Json) : LoopState :=
  if returnAllMessages then
    if st.result.allMessages.length < messageLimit then
      if lineData.isObj then
        let messageSize := serSize lineData
        if st.allMessagesSize + messageSize ≤ MAX_ALL_MESSAGES_SIZE then
          { st with
            allMessagesSize := st.allMessagesSize + messageSize,
            result := { st.result with
              allMessages := st.result.allMessages ++ [lineData] } }
        else if ¬ st.result.allMessagesTruncated then
          { st with result := { st.result with allMessagesTruncated := true } }
        else st
      else st
    else if ¬ st.result.allMessagesTruncated then
      { st with result := { st.result with allMessagesTruncated := true } }
    else st
  else st

/-- Second block: `thread_id` extraction (lines 380-384). -/
def stepThreadId (st : LoopState) (lineData : Json) : LoopState :=
  match (lineData.get "thread_id").bind Json.asStr with
  | some threadId =>
    if threadId ≠ "" then
      { st with result := { st.result with sessionId := threadId } }
    else st
  | none => st

/-- Third block: `agent_message` accumulation (lines 386-407). -/
def stepAgentMessage (st : LoopState) (lineData : Json) : LoopState :=
  match lineData.get "item" with
  | some item =>
    if item.isObj then
      match (item.get "type").bind Json.asStr with
      | some itemType =>
        if itemType = "agent_message" then
          match (item.get "text").bind Json.asStr with
          | some text =>
            let newSize := byteLen st.result.agentMessages + byteLen text
            if newSize > MAX_AGENT_MESSAGES_SIZE then
              if ¬ st.result.agentMessagesTruncated then
                { st with result := { st.result with
                    agentMessages := st.result.agentMessages ++ AGENT_TRUNC_SENTINEL,
                    agentMessagesTruncated := true } }
              else st
            else if ¬ st.result.agentMessagesTruncated then
              { st with result := { st.result with
                  agentMessages :=
                    (if st.result.agentMessages ≠ "" ∧ text ≠ "" then
                      st.result.agentMessages ++ "\n"
                    else st.result.agentMessages) ++ text } }
            else st
          | none => st
        else st
      | none => st
    else st
  | none => st

/-- Fourth block: failure detection on the `type` field (lines 409-422). -/
def stepFailType (st : LoopState) (lineData : Json) : LoopState :=
  match (lineData.get "type").bind Json.asStr with
  | some lineType =>
    if containsSub lineType "fail" || containsSub lineType "error" then
      let r := { st.result with success := false }
      let r :=
        match lineData.get "error" with
        | some errVal =>
          if errVal.isObj then
            match (errVal.get "message").bind Json.asStr with
            | some msg => { r with error := some ("codex error: " ++ msg) }
            | none => r
          else topMessageFallback r lineData
        | none => topMessageFallback r lineData
      { st with result := r }
    else st
  | none => st

/-- Mirror of the body of the stdout loop for one successfully parsed line
(lines 361-422 of `src/tools/codex.rs`): the four blocks in sequence. -/
def processParsedLine (returnAllMessages : Bool) (messageLimit : Nat)
    (serSize : Json → Nat) (st : LoopState) (lineData : Json) : LoopState :=
  stepFailType
    (stepAgentMessage
      (stepThreadId (stepAllMessages returnAllMessages messageLimit serSize st lineData)
        lineData)
      lineData)
    lineData

/-- The error message recorded for an over-long stdout line (lines 325-330). -/
def LINE_OVERFLOW_ERROR : String :=
  "Output line exceeded " ++ toString MAX_LINE_LENGTH ++
    " byte limit and was truncated, cannot parse JSON."

/-- Mirror of the stdout read loop of `run_internal` (lines 316-430),
folded over the classified line events. -/
def processStdout (returnAllMessages : Bool) (messageLimit : Nat)
    (serSize : Json → Nat) : List ReadEvent → LoopState → LoopState
  | [], st => st
  | ev :: rest, st =>
    match ev with
    | .ioError errMsg =>
      { st with result := recordParseError st.result errMsg "" }
    | .truncatedLine =>
      let st := { st with result :=
        { st.result with success := false, error := some LINE_OVERFLOW_ERROR } }
      let st := if ¬ st.parseErrorSeen then { st with parseErrorSeen := true } else st
      processStdout returnAllMessages messageLimit serSize rest st
    | .emptyLine => processStdout returnAllMessages messageLimit serSize rest st
    | .unparsable content errMsg =>
      if st.parseErrorSeen then
        processStdout returnAllMessages messageLimit serSize rest st
      else
        let st := { st with result := recordParseError st.result errMsg content }
        let st := if ¬ st.parseErrorSeen then { st with parseErrorSeen := true } else st
        processStdout returnAllMessages messageLimit serSize rest st
    | .parsed lineData =>
      if st.parseErrorSeen then
        processStdout returnAllMessages messageLimit serSize rest st
      else
        processStdout returnAllMessages messageLimit serSize rest
          (processParsedLine returnAllMessages messageLimit serSize st lineData)

/-- Rust `format!` of `status.code()` (an `Option<i32>` under `Debug`). -/
def exitCodeRepr : Option Int → String
  | some c => "Some(" ++ toString c ++ ")"
  | none => "None"

/-- Mirror of the post-loop epilogue of `run_internal` (lines 432-462):
exit-status handling, stderr attachment and final validation. -/
def finishRun (st : LoopState) (exitSuccess : Bool) (exitCode : Option Int)
    (stderrOutput : String) : CodexResult :=
  let r := st.result
  let r :=
    if ¬ exitSuccess then
      let errorMsg :=
        match r.error with
        | some err => err
        | none => "codex command failed with exit code: " ++ exitCodeRepr exitCode
      let r := { r with success := false }
      if stderrOutput ≠ "" then
        { r with error := some (errorMsg ++ "\nStderr: " ++ stderrOutput) }
      else
        { r with error := some errorMsg }
    else if stderrOutput ≠ "" then { r with warnings := some stderrOutput }
    else r
  enforceRequiredFields r ValidationMode.Full

/-- Initial `CodexResult` of `run_internal` (lines 247-256). -/
def initialResult : CodexResult :=
  { success := true, sessionId := "", agentMessages := "",
    agentMessagesTruncated := false, allMessages := [],
    allMessagesTruncated := false, error := none, warnings := none }

/-- The `message_limit` computation (lines 262-265). -/
def messageLimitOf (returnAllMessagesLimit : Option Nat) : Nat :=
  min (returnAllMessagesLimit.getD DEFAULT_MESSAGE_LIMIT) MAX_MESSAGE_LIMIT

/-- End-to-end model of `run_internal` after the spawn: fold the classified
stdout events, then apply exit handling, stderr and final validation. -/
def runModel (returnAllMessages : Bool) (returnAllMessagesLimit : Option Nat)
    (serSize : Json → Nat) (events : List ReadEvent) (exitSuccess : Bool)
    (exitCode : Option Int) (stderrOutput : String) : CodexResult :=
  finishRun
    (processStdout returnAllMessages (messageLimitOf returnAllMessagesLimit) serSize
      events { result := initialResult, parseErrorSeen := false, allMessagesSize := 0 })
    exitSuccess exitCode stderrOutput

/-- One step of the stderr capture loop (lines 277-307), applied to each
line yielded by the limited reader (after lossy conversion and trimming). -/
def stderrStep (acc : String × Bool) (line : String) : String × Bool :=
  let out := acc.1
  let truncated := acc.2
  let newSize := byteLen out + byteLen line + 1
  if newSize > MAX_STDERR_SIZE then
    if ¬ truncated then
      ((if out ≠ "" then out ++ "\n" else out) ++ STDERR_TRUNC_MARKER, true)
    else acc
  else if ¬ truncated then
    ((if out ≠ "" then out ++ "\n" else out) ++ line, truncated)
  else acc

/-- The captured stderr for a list of stderr lines. -/
def stderrDrain (lines : List String) : String :=
  (lines.foldl stderrStep ("", false)).1

/-- Mirror of `SecurityConfig`. -/
structure SecurityConfig where
  allowDangerFullAccess : Bool
  allowYolo : Bool
  allowSkipGitCheck : Bool

def DANGER_WARNING : String :=
  "Security warning: danger-full-access sandbox mode was downgraded to read-only. Set CODEX_ALLOW_DANGEROUS=true to enable."

def YOLO_WARNING : String :=
  "Security warning: yolo mode was disabled. Set CODEX_ALLOW_YOLO=true to enable."

def SKIP_GIT_WARNING : String :=
  "Security warning: skip_git_repo_check was disabled. Set CODEX_ALLOW_SKIP_GIT_CHECK=true to enable."

/-- Mirror of `apply_security_restrictions` (lines 671-698): returns the
effective sandbox, yolo and skip-git options plus the warnings pushed, in
order of emission. -/
def applySecurityRestrictions (sandbox : SandboxPolicy) (yolo : Bool)
    (skipGitRepoCheck : Bool) (security : SecurityConfig) :
    SandboxPolicy × Bool × Bool × List String :=
  let p1 :=
    if ¬ security.allowDangerFullAccess ∧ sandbox = SandboxPolicy.DangerFullAccess then
      (SandboxPolicy.ReadOnly, [DANGER_WARNING])
    else (sandbox, [])
  let p2 :=
    if ¬ security.allowYolo ∧ yolo = true then
      (false, [YOLO_WARNING])
    else (yolo, [])
  let p3 :=
    if ¬ security.allowSkipGitCheck ∧ skipGitRepoCheck = true then
      (false, [SKIP_GIT_WARNING])
    else (skipGitRepoCheck, [])
  (p1.1, p2.1, p3.1, p1.2 ++ p2.2 ++ p3.2)

end Codex

namespace Gemini

def PROMPT_DEPRECATION_WARNING : String := "The --prompt (-p) flag has been deprecated"
def MAX_MESSAGES_LIMIT : Nat := 10000
def MAX_NON_JSON_LINES : Nat := 1000

/-- Mirror of `GeminiResult` in `src/tools/gemini.rs`. -/
structure GeminiResult where
  success : Bool
  sessionId : String
  agentMessages : String
  allMessages : List Json
  returnAllMessages : Bool
  error : Option String

/-- Mirror of `Vec::<String>::join("\n")`. -/
def joinLines : List String → String
  | [] => ""
  | a :: rest => rest.foldl (fun acc s => acc ++ "\n" ++ s) a

/-- Whether a parsed gemini stdout line enters the failure branch:
lowercased `type` contains `"fail"`/`"error"`, or an `error` key is
present (lines 101-106 of `src/tools/gemini.rs`). -/
def isErrorEvent (j : Json) : Bool :=
  let itemType := ((j.get "type").bind Json.asStr).getD ""
  let itemTypeLower := itemType.toLower
  (containsSub itemTypeLower "fail" || containsSub itemTypeLower "error") ||
    (j.get "error").isSome

/-- The error message the gemini failure branch would extract. -/
def extractedErrMsg (j : Json) : Option String :=
  match j.get "error" with
  | some errVal =>
    if errVal.isObj then (errVal.get "message").bind Json.asStr
    else (j.get "message").bind Json.asStr
  | none => (j.get "message").bind Json.asStr

/-- Whether the line is skipped as the CLI deprecation warning
(lines 88-93). -/
def isDeprecationSkip (j : Json) : Bool :=
  (((j.get "type").bind Json.asStr).getD "" = "message" ∧
    ((j.get "role").bind Json.asStr).getD "" = "assistant" ∧
    (j.get "content").bind Json.asStr = some PROMPT_DEPRECATION_WARNING : Prop)

/-- First block of `process_json_line`: `all_messages` collection
(lines 67-69 of `src/tools/gemini.rs`). -/
def gStepAllMessages (lineData : Json) (r : GeminiResult)
    (returnAllMessages : Bool) : GeminiResult :=
  if returnAllMessages ∧ r.allMessages.length < MAX_MESSAGES_LIMIT then
    { r with allMessages := r.allMessages ++ [lineData] }
  else r

/-- Second block: `session_id` extraction (lines 72-76). -/
def gStepSessionId (lineData : Json) (r : GeminiResult) : GeminiResult :=
  match (lineData.get "session_id").bind Json.asStr with
  | some sessionId =>
    if sessionId ≠ "" then { r with sessionId := sessionId } else r
  | none => r

/-- Third block: assistant-message accumulation (lines 88-99), after the
deprecation-warning skip has been ruled out. -/
def gStepAgent (lineData : Json) (r : GeminiResult) : GeminiResult :=
  if ((lineData.get "type").bind Json.asStr).getD "" = "message" ∧
      ((lineData.get "role").bind Json.asStr).getD "" = "assistant" then
    match (lineData.get "content").bind Json.asStr with
    | some content =>
      { r with agentMessages :=
          (if r.agentMessages ≠ "" then r.agentMessages ++ "\n" else r.agentMessages)
            ++ content }
    | none => r
  else r

/-- Fourth block: error detection (lines 101-115). -/
def gStepError (lineData : Json) (r : GeminiResult) : GeminiResult :=
  if isErrorEvent lineData = true then
    let r := { r with success := false }
    match lineData.get "error" with
    | some errVal =>
      if errVal.isObj then
        match (errVal.get "message").bind Json.asStr with
        | some msg => { r with error := some ("gemini error: " ++ msg) }
        | none => r
      else
        match (lineData.get "message").bind Json.asStr with
        | some msg => { r with error := some ("gemini error: " ++ msg) }
        | none => r
    | none =>
      match (lineData.get "message").bind Json.asStr with
      | some msg => { r with error := some ("gemini error: " ++ msg) }
      | none => r
  else r

/-- Mirror of `process_json_line` (lines 64-116 of `src/tools/gemini.rs`):
the two extraction blocks, then either the deprecation-warning early
return or the assistant-text and error blocks. -/
def processJsonLine (lineData : Json) (r : GeminiResult)
    (returnAllMessages : Bool) : GeminiResult :=
  let r := gStepSessionId lineData (gStepAllMessages lineData r returnAllMessages)
  if isDeprecationSkip lineData = true then r
  else gStepError lineData (gStepAgent lineData r)

/-- A classified stdout line of the gemini CLI: either a line whose JSON
parse succeeded, or a non-empty non-JSON line (empty lines are skipped by
the loop before classification). -/
inductive GLine where
  | json (j : Json) : GLine
  | nonJson (content : String) : GLine

/-- State of the gemini stdout loop: the result plus `non_json_lines` and
`valid_json_seen`. -/
structure GLoopState where
  result : GeminiResult
  nonJsonLines : List String
  validJsonSeen : Bool

/-- Mirror of the stdout arm of the select loop in `run_with_child`
(lines 286-315 of `src/tools/gemini.rs`). -/
def processGeminiStdout (returnAllMessages : Bool) :
    List GLine → GLoopState → GLoopState
  | [], st => st
  | l :: rest, st =>
    match l with
    | .json lineData =>
      processGeminiStdout returnAllMessages rest
        { st with
          validJsonSeen := true,
          result := processJsonLine lineData st.result returnAllMessages }
    | .nonJson content =>
      processGeminiStdout returnAllMessages rest
        { st with
          nonJsonLines :=
            if st.nonJsonLines.length < MAX_NON_JSON_LINES then
              st.nonJsonLines ++ [content]
            else st.nonJsonLines }

/-- The `errors` list accumulated by gemini `enforce_required_fields`
(lines 385-399 of `src/tools/gemini.rs`). -/
def requiredErrors (r : GeminiResult) : List String :=
  (if r.sessionId = "" then
    ["Failed to get `SESSION_ID` from the gemini session."]
  else []) ++
  (if r.agentMessages = "" ∧ r.returnAllMessages = false then
    ["Failed to get `agent_messages` from the gemini session.\nYou can try to set `return_all_messages` to `True` to get the full information."]
  else if r.agentMessages = "" ∧ r.returnAllMessages = true ∧ r.allMessages.isEmpty = true then
    ["Failed to get any messages from the gemini session."]
  else [])

/-- Mirror of `enforce_required_fields` (lines 384-412 of
`src/tools/gemini.rs`). -/
def enforceRequiredFields (r : GeminiResult) : GeminiResult :=
  if requiredErrors r ≠ [] then
    let newError := joinLines (requiredErrors r)
    let existingError := r.error.filter (fun s => s ≠ "")
    { r with
      success := false,
      error :=
        (match existingError with
         | some prev => some (prev ++ "\n" ++ newError)
         | none => some newError) }
  else r

/-- Rust `format!` of `status.code()`. -/
def exitCodeRepr : Option Int → String
  | some c => "Some(" ++ toString c ++ ")"
  | none => "None"

/-- Mirror of the epilogue of `run_with_child` (lines 346-381): exit-status
handling, the zero-JSON failure rule and final validation.  `stderrOutput`
is the string accumulated by the (concurrent) stderr arm. -/
def finishGeminiRun (st : GLoopState) (exitSuccess : Bool) (exitCode : Option Int)
    (stderrOutput : String) : GeminiResult :=
  let r := st.result
  let r :=
    if ¬ exitSuccess then
      let errorMsg :=
        match r.error with
        | some err => err
        | none => "gemini command failed with exit code: " ++ exitCodeRepr exitCode
      let fullError :=
        if stderrOutput ≠ "" then errorMsg ++ "\nStderr: " ++ stderrOutput else errorMsg
      let fullError :=
        if st.nonJsonLines ≠ [] then
          fullError ++ "\nNon-JSON output: " ++ joinLines st.nonJsonLines
        else fullError
      { r with success := false, error := some fullError }
    else if st.nonJsonLines ≠ [] ∧ st.validJsonSeen = false then
      { r with
        success := false,
        error := some ("No valid JSON output received from gemini CLI.\nOutput: " ++
          joinLines st.nonJsonLines) }
    else r
  enforceRequiredFields r

/-- Initial `GeminiResult` of `run_with_child` (lines 266-273). -/
def initialResult (returnAllMessages : Bool) : GeminiResult :=
  { success := true, sessionId := "", agentMessages := "", allMessages := [],
    returnAllMessages := returnAllMessages, error := none }

/-- End-to-end model of `run_with_child` after the spawn. -/
def runModel (returnAllMessages : Bool) (lines : List GLine) (exitSuccess : Bool)
    (exitCode : Option Int) (stderrOutput : String) : GeminiResult :=
  finishGeminiRun
    (processGeminiStdout returnAllMessages lines
      { result := initialResult returnAllMessages, nonJsonLines := [], validJsonSeen := false })
    exitSuccess exitCode stderrOutput

end Gemini

namespace Transport

/-- Mirror of `FramingFormat` in `src/transport.rs`. -/
inductive FramingFormat where
  | JsonLines : FramingFormat
  | Lsp : FramingFormat
deriving DecidableEq

/-- UTF-8 bytes of an ASCII string literal (all uses are ASCII). -/
def asciiBytes (s : String) : List UInt8 := s.data.map (fun c => UInt8.ofNat c.toNat)

/-- Mirror of `u8::is_ascii_whitespace` (space, tab, newline, carriage
return, form feed). -/
def isAsciiWhitespaceByte (b : UInt8) : Bool :=
  b = 32 || b = 9 || b = 10 || b = 13 || b = 12

def CONTENT_LENGTH_BYTES : List UInt8 := asciiBytes "Content-Length:"

/-- Mirror of `AdaptiveCodec::detect_format` (lines 87-116 of
`src/transport.rs`). -/
def detectFormat (buf : List UInt8) : Option FramingFormat :=
  let start :=
    match buf.findIdx? (fun b => ! isAsciiWhitespaceByte b) with
    | some i => i
    | none => 0
  if buf.length ≤ start then none
  else
    let firstByte := buf.getD start 0
    if firstByte = 67 then
      if CONTENT_LENGTH_BYTES.isPrefixOf (buf.drop start) then some FramingFormat.Lsp
      else if buf.length - start < 15 then none
      else if firstByte = 123 then some FramingFormat.JsonLines
      else some FramingFormat.JsonLines
    else if firstByte = 123 then some FramingFormat.JsonLines
    else some FramingFormat.JsonLines

/-- ASCII decimal rendering of a number, mirroring `format!` on `usize`. -/
def natDecimal (n : Nat) : List UInt8 :=
  if n = 0 then [48]
  else ((Nat.digits 10 n).reverse).map (fun d => UInt8.ofNat (48 + d))

def isDigitByte (b : UInt8) : Bool := decide (48 ≤ b ∧ b ≤ 57)

/-- Mirror of `str::parse::<usize>` on the bytes of a string: an optional
leading plus sign followed by one or more ASCII digits (overflow is not
modelled; `Nat` is unbounded). -/
def parseUsizeBytes (l : List UInt8) : Option Nat :=
  let l :=
    match l with
    | b :: rest => if b = 43 then rest else l
    | [] => l
  if l.isEmpty then none
  else if l.all isDigitByte then
    some (l.foldl (fun acc b => acc * 10 + (b.toNat - 48)) 0)
  else none

/-- Position of the first `\r\n\r\n` window, mirroring
`buf.windows(4).position(|w| w == separator)`. -/
def findSep : List UInt8 → Option Nat
  | 13 :: 10 :: 13 :: 10 :: _ => some 0
  | _ :: rest => (findSep rest).map (fun i => i + 1)
  | [] => none

def isUtf8Cont (b : UInt8) : Bool := decide (128 ≤ b ∧ b ≤ 191)

/-- Validity of a byte sequence as UTF-8, mirroring the check done by
`std::str::from_utf8` (strict: overlong encodings and surrogates are
rejected).  Driven by fuel (one unit per encoded scalar), which the
wrapper sets to the byte length, always enough. -/
def utf8ValidAux : Nat → List UInt8 → Bool
  | 0, l => l.isEmpty
  | _ + 1, [] => true
  | fuel + 1, b :: rest =>
    if b ≤ 127 then utf8ValidAux fuel rest
    else if 194 ≤ b ∧ b ≤ 223 then
      decide (1 ≤ rest.length) && isUtf8Cont (rest.getD 0 0) &&
        utf8ValidAux fuel (rest.drop 1)
    else if b = 224 then
      decide (2 ≤ rest.length) &&
        decide (160 ≤ rest.getD 0 0 ∧ rest.getD 0 0 ≤ 191) &&
        isUtf8Cont (rest.getD 1 0) && utf8ValidAux fuel (rest.drop 2)
    else if 225 ≤ b ∧ b ≤ 236 then
      decide (2 ≤ rest.length) && isUtf8Cont (rest.getD 0 0) &&
        isUtf8Cont (rest.getD 1 0) && utf8ValidAux fuel (rest.drop 2)
    else if b = 237 then
      decide (2 ≤ rest.length) &&
        decide (128 ≤ rest.getD 0 0 ∧ rest.getD 0 0 ≤ 159) &&
        isUtf8Cont (rest.getD 1 0) && utf8ValidAux fuel (rest.drop 2)
    else if 238 ≤ b ∧ b ≤ 239 then
      decide (2 ≤ rest.length) && isUtf8Cont (rest.getD 0 0) &&
        isUtf8Cont (rest.getD 1 0) && utf8ValidAux fuel (rest.drop 2)
    else if b = 240 then
      decide (3 ≤ rest.length) &&
        decide (144 ≤ rest.getD 0 0 ∧ rest.getD 0 0 ≤ 191) &&
        isUtf8Cont (rest.getD 1 0) && isUtf8Cont (rest.getD 2 0) &&
        utf8ValidAux fuel (rest.drop 3)
    else if 241 ≤ b ∧ b ≤ 243 then
      decide (3 ≤ rest.length) && isUtf8Cont (rest.getD 0 0) &&
        isUtf8Cont (rest.getD 1 0) && isUtf8Cont (rest.getD 2 0) &&
        utf8ValidAux fuel (rest.drop 3)
    else if b = 244 then
      decide (3 ≤ rest.length) &&
        decide (128 ≤ rest.getD 0 0 ∧ rest.getD 0 0 ≤ 143) &&
        isUtf8Cont (rest.getD 1 0) && isUtf8Cont (rest.getD 2 0) &&
        utf8ValidAux fuel (rest.drop 3)
    else false

/-- Entry point of the UTF-8 validity check. -/
def utf8ValidBytes (l : List UInt8) : Bool := utf8ValidAux l.length l

/-- Split a byte sequence on newline bytes (all segments kept). -/
def splitNl : List UInt8 → List (List UInt8)
  | [] => [[]]
  | b :: rest =>
    if b = 10 then [] :: splitNl rest
    else
      match splitNl rest with
      | seg :: segs => (b :: seg) :: segs
      | [] => [[b]]

/-- Strip one trailing carriage return, as `str::lines` does per line. -/
def stripTrailingCr (seg : List UInt8) : List UInt8 :=
  match seg.getLast? with
  | some b => if b = 13 then seg.dropLast else seg
  | none => seg

/-- Mirror of `str::lines` at the byte level: split on `\n`, drop the
final empty segment produced by a trailing newline, strip one `\r` per
line. -/
def linesBytes (l : List UInt8) : List (List UInt8) :=
  if l.isEmpty then []
  else
    let segs := splitNl l
    let segs := if l.getLast? = some 10 then segs.dropLast else segs
    segs.map stripTrailingCr

/-- ASCII part of `char::is_whitespace` (used by `str::trim`). -/
def isTrimWsByte (b : UInt8) : Bool :=
  b = 32 || b = 9 || b = 10 || b = 11 || b = 12 || b = 13

/-- Mirror of `str::trim` for ASCII byte sequences (Unicode whitespace
beyond ASCII is not modelled; all inputs of interest are ASCII). -/
def asciiTrimBytes (l : List UInt8) : List UInt8 :=
  ((l.dropWhile isTrimWsByte).reverse.dropWhile isTrimWsByte).reverse

/-- The header scan of `parse_lsp_headers` (lines 128-135): find the first
`Content-Length` header line and parse its value; a malformed value aborts
with `None` (the `?` operator). -/
def findContentLength : List (List UInt8) → Nat → Option (Nat × Nat)
  | [], _ => none
  | line :: rest, bodyStart =>
    let line := asciiTrimBytes line
    if CONTENT_LENGTH_BYTES.isPrefixOf line then
      match parseUsizeBytes (asciiTrimBytes (line.drop CONTENT_LENGTH_BYTES.length)) with
      | some n => some (n, bodyStart)
      | none => none
    else findContentLength rest bodyStart

/-- Mirror of `AdaptiveCodec::parse_lsp_headers` (lines 119-138). -/
def parseLspHeaders (buf : List UInt8) : Option (Nat × Nat) :=
  match findSep buf with
  | none => none
  | some sepPos =>
    let headerBytes := buf.take sepPos
    if utf8ValidBytes headerBytes = true then
      findContentLength (linesBytes headerBytes) (sepPos + 4)
    else none

/-- Mirror of `without_carriage_return` (lines 141-147). -/
def withoutCarriageReturn (s : List UInt8) : List UInt8 :=
  match s.getLast? with
  | some b => if b = 13 then s.dropLast else s
  | none => s

/-- Mirror of `AdaptiveCodecError` (I/O errors are outside the model). -/
inductive CodecError where
  | maxLineLengthExceeded : CodecError
  | serde : CodecError
deriving DecidableEq

/-- The JSONL decoding state of `AdaptiveCodec` (fields `next_index`,
`max_length`, `is_discarding`). -/
structure JsonlState where
  nextIndex : Nat
  maxLength : Nat
  isDiscarding : Bool
deriving DecidableEq

/-- Mirror of `AdaptiveCodec::decode_jsonl` (lines 229-275).  The JSON
parse is the parameter `par` (standing for `serde_json::from_slice`); the
loop is driven by fuel, which the wrapper sets large enough that it never
runs out (every iteration either returns or consumes at least one byte). -/
def decodeJsonlAux {J : Type} (par : List UInt8 → Option J) :
    Nat → JsonlState → List UInt8 →
      Except CodecError (Option J) × JsonlState × List UInt8
  | 0, st, buf => (Except.ok none, st, buf)
  | fuel + 1, st, buf =>
    let readTo := min (st.maxLength + 1) buf.length
    let newlineOffset := ((buf.take readTo).drop st.nextIndex).findIdx? (fun b => b = 10)
    match st.isDiscarding, newlineOffset with
    | true, some offset =>
      decodeJsonlAux par fuel { st with isDiscarding := false, nextIndex := 0 }
        (buf.drop (offset + st.nextIndex + 1))
    | true, none =>
      let buf := buf.drop readTo
      let st := { st with nextIndex := 0 }
      if buf.isEmpty then (Except.ok none, st, buf)
      else decodeJsonlAux par fuel st buf
    | false, some offset =>
      let newlineIndex := offset + st.nextIndex
      let st := { st with nextIndex := 0 }
      let line := buf.take (newlineIndex + 1)
      let rest := buf.drop (newlineIndex + 1)
      let line := line.dropLast
      let line := withoutCarriageReturn line
      if line.isEmpty then decodeJsonlAux par fuel st rest
      else
        match par line with
        | some item => (Except.ok (some item), st, rest)
        | none => (Except.error CodecError.serde, st, rest)
    | false, none =>
      if buf.length > st.maxLength then
        (Except.error CodecError.maxLineLengthExceeded,
          { st with isDiscarding := true }, buf)
      else
        (Except.ok none, { st with nextIndex := readTo }, buf)

/-- Entry point for JSONL decoding. -/
def decodeJsonl {J : Type} (par : List UInt8 → Option J) (st : JsonlState)
    (buf : List UInt8) : Except CodecError (Option J) × JsonlState × List UInt8 :=
  decodeJsonlAux par (buf.length + 1) st buf

/-- Mirror of `AdaptiveCodec::decode_lsp` (lines 204-227).  The state is
the `expected_content_length` field; the single recursive call after
header consumption is unrolled by fuel 2. -/
def decodeLspAux {J : Type} (par : List UInt8 → Option J) :
    Nat → Option Nat → List UInt8 →
      Except CodecError (Option J) × Option Nat × List UInt8
  | 0, st, buf => (Except.ok none, st, buf)
  | fuel + 1, st, buf =>
    match st with
    | some contentLength =>
      if buf.length ≥ contentLength then
        let body := buf.take contentLength
        let rest := buf.drop contentLength
        match par body with
        | some item => (Except.ok (some item), none, rest)
        | none => (Except.error CodecError.serde, none, rest)
      else (Except.ok none, st, buf)
    | none =>
      match parseLspHeaders buf with
      | some hdr => decodeLspAux par fuel (some hdr.1) (buf.drop hdr.2)
      | none => (Except.ok none, st, buf)

/-- Entry point for LSP decoding. -/
def decodeLsp {J : Type} (par : List UInt8 → Option J) (st : Option Nat)
    (buf : List UInt8) : Except CodecError (Option J) × Option Nat × List UInt8 :=
  decodeLspAux par 2 st buf

/-- Mirror of `AdaptiveCodec::encode` (lines 281-307) at the byte level,
applied to the serialized payload (the parameter stands for
`serde_json::to_vec`): JSONL appends a newline; LSP prepends the ASCII
header `Content-Length: <n>\r\n\r\n`. -/
def encodeBytes (fmt : FramingFormat) (payload : List UInt8) : List UInt8 :=
  match fmt with
  | .Lsp =>
    asciiBytes "Content-Length: " ++ natDecimal payload.length ++
      [13, 10, 13, 10] ++ payload
  | .JsonLines => payload ++ [10]

end Transport

namespace Grok

/-- Mirror of `CN_TIME_KEYWORDS` in `src/tools/grok/provider.rs`. -/
def CN_TIME_KEYWORDS : List String :=
  ["当前", "现在", "今天", "明天", "昨天",
   "本周", "上周", "下周", "这周",
   "本月", "上月", "下月", "这个月",
   "今年", "去年", "明年",
   "最新", "最近", "近期", "刚刚", "刚才",
   "实时", "即时", "目前"]

/-- Mirror of `EN_TIME_KEYWORDS`. -/
def EN_TIME_KEYWORDS : List String :=
  ["current", "now", "today", "tomorrow", "yesterday",
   "this week", "last week", "next week",
   "this month", "last month", "next month",
   "this year", "last year", "next year",
   "latest", "recent", "recently", "just now",
   "real-time", "realtime", "up-to-date"]

/-- Mirror of `needs_time_context` (lines 34-50): Chinese keywords are
matched against the query itself, English keywords against the lowercased
query (`str::to_lowercase`; ASCII lowercasing suffices for these ASCII
keywords). -/
def needsTimeContext (query : String) : Bool :=
  let queryLower := query.toLower
  if CN_TIME_KEYWORDS.any (fun kw => containsSub query kw) then true
  else if EN_TIME_KEYWORDS.any (fun kw => containsSub queryLower kw) then true
  else false

/-- The user message assembled by `GrokSearchProvider::search`
(lines 132-156).  `timeInfo` stands for `get_local_time_info()` (wall
clock, external). -/
def searchUserContent (timeInfo query platform : String)
    (minResults maxResults : Int) : String :=
  let platformPrompt :=
    if platform ≠ "" then
      "\n\nYou should search the web for the information you need, and focus on these platform: "
        ++ platform
    else ""
  let returnPrompt :=
    if maxResults > 0 then
      "\n\nYou should return the results in a JSON format, and the results should at least be "
        ++ toString minResults ++ " and at most be " ++ toString maxResults ++ " results."
    else ""
  let timeContext := if needsTimeContext query then timeInfo ++ "\n" else ""
  timeContext ++ query ++ platformPrompt ++ returnPrompt

/-- The user message assembled by `GrokSearchProvider::fetch`
(line 182): the URL followed by a fixed instruction, with no time-context
injection. -/
def fetchUserContent (url : String) : String :=
  url ++ "\n获取该网页内容并返回其结构化Markdown格式"

/-- Mirror of `RETRYABLE_STATUS_CODES`. -/
def RETRYABLE_STATUS_CODES : List Nat := [408, 429, 500, 502, 503, 504]

/-- Mirror of `is_retryable_status`. -/
def isRetryableStatus (status : Nat) : Bool := RETRYABLE_STATUS_CODES.contains status

/-- Mirror of `exponential_backoff_with_jitter` (lines 92-98) over exact
rationals (the source computes in `f64`); the jitter drawn from
`[0, base)` by the RNG is a parameter. -/
def exponentialBackoffWithJitter (attempt : Nat) (multiplier maxWait jitter : ℚ) : ℚ :=
  let base := multiplier * 2 ^ attempt
  let wait := base + jitter
  min wait maxWait

/-- One HTTP attempt as seen by `execute_stream_with_retry`: either a
response (status, the parsed `Retry-After` value if the header is present
and parseable, the error body, and the content that
`parse_streaming_response` would distil on success) or a network error. -/
inductive HttpAttempt where
  | response (status : Nat) (retryAfterSecs : Option ℚ) (body : String)
      (content : String) : HttpAttempt
  | netError (msg : String) : HttpAttempt

/-- Mirror of the retry loop of `execute_stream_with_retry`
(lines 348-416).  `responses k` is the outcome of the k-th send,
`jitter k` the RNG draw for attempt `k`.  Returns the overall outcome,
the number of sends issued, and the waits slept between attempts in
order. -/
def retryAux (maxAttempts : Nat) (multiplier maxWait : ℚ)
    (responses : Nat → HttpAttempt) (jitter : Nat → ℚ) :
    Nat → Nat → Except String String × Nat × List ℚ
  | _, 0 => (Except.error "All retry attempts exhausted", 0, [])
  | attempt, fuel + 1 =>
    match responses attempt with
    | .response status retryAfterSecs body content =>
      if 200 ≤ status ∧ status ≤ 299 then (Except.ok content, attempt + 1, [])
      else if isRetryableStatus status = false ∨ attempt = maxAttempts then
        (Except.error ("API request failed with HTTP " ++ toString status ++ ": " ++ body),
          attempt + 1, [])
      else
        let waitSecs :=
          if status = 429 then
            match retryAfterSecs with
            | some w => w
            | none => exponentialBackoffWithJitter attempt multiplier maxWait (jitter attempt)
          else exponentialBackoffWithJitter attempt multiplier maxWait (jitter attempt)
        let next := retryAux maxAttempts multiplier maxWait responses jitter (attempt + 1) fuel
        (next.1, next.2.1, waitSecs :: next.2.2)
    | .netError msg =>
      if attempt = maxAttempts then
        (Except.error ("API request failed after all retries: " ++ msg), attempt + 1, [])
      else
        let waitSecs :=
          exponentialBackoffWithJitter attempt multiplier maxWait (jitter attempt)
        let next := retryAux maxAttempts multiplier maxWait responses jitter (attempt + 1) fuel
        (next.1, next.2.1, waitSecs :: next.2.2)

/-- Entry point of the retry loop (`for attempt in 0..=max_attempts`). -/
def executeStreamWithRetry (maxAttempts : Nat) (multiplier maxWait : ℚ)
    (responses : Nat → HttpAttempt) (jitter : Nat → ℚ) :
    Except String String × Nat × List ℚ :=
  retryAux maxAttempts multiplier maxWait responses jitter 0 (maxAttempts + 1)

end Grok

namespace Codex

/-- Length of the first line of a byte stream, counting the terminating
newline byte; the whole stream if it holds no newline.  Used to state the
contract of `read_line_with_limit`. -/
def lineLen : List UInt8 → Nat
  | [] => 0
  | b :: rest => if b = 10 then 1 else lineLen rest + 1

/-- Whether a parsed stdout line enters the failure branch of the loop:
its `type` string field contains `"fail"` or `"error"` (case-sensitive;
lines 409-410 of `src/tools/codex.rs`). -/
def isFailType (j : Json) : Bool :=
  match (j.get "type").bind Json.asStr with
  | some t => containsSub t "fail" || containsSub t "error"
  | none => false

/-- The error message the failure branch would extract from a line:
`error.message` when `error` is an object, else the top-level `message`
string (lines 412-420). -/
def extractedErrMsg (j : Json) : Option String :=
  match j.get "error" with
  | some errVal =>
    if errVal.isObj then (errVal.get "message").bind Json.asStr
    else (j.get "message").bind Json.asStr
  | none => (j.get "message").bind Json.asStr

end Codex


/-- Error-field invariant of the codex pipeline: any recorded error is
non-empty, and a failed result carries an error. -/
def Codex.ErrInv (r : Codex.CodexResult) : Prop :=
  (∀ e, r.error = some e → e ≠ "") ∧ (r.success = false → r.error ≠ none)

/-- Error-field invariant of the gemini pipeline. -/
def Gemini.ErrInv (r : Gemini.GeminiResult) : Prop :=
  (∀ e, r.error = some e → e ≠ "") ∧ (r.success = false → r.error ≠ none)

/-- A parsed stdout line carrying one `agent_message` item with the given
text, in the shape codex emits (`item.type = "agent_message"`,
`item.text` the message). -/
def Codex.agentMsgJson (text : String) : Json :=
  Json.obj [("item", Json.obj
    [("type", Json.str "agent_message"), ("text", Json.str text)])]

/-- A single agent message of `MAX_AGENT_MESSAGES_SIZE - 1` bytes. -/
def Codex.bigAgentText : String :=
  String.mk (List.replicate (Codex.MAX_AGENT_MESSAGES_SIZE - 1) 'b')

/-- A minimal serializer on booleans, standing in for `serde_json::to_vec`
on the two JSON values `true` and `false` (their exact serde encodings). -/
def Transport.boolSer (b : Bool) : List UInt8 :=
  if b then Transport.asciiBytes "true" else Transport.asciiBytes "false"

/-- The parser matching `Transport.boolSer`, standing in for
`serde_json::from_slice`. -/
def Transport.boolPar (l : List UInt8) : Option Bool :=
  if l = Transport.asciiBytes "true" then some true
  else if l = Transport.asciiBytes "false" then some false
  else none

theorem byteLen_append (s t : String) : byteLen (s ++ t) = byteLen s + byteLen t := by
  cases s with
  | mk ds =>
    cases t with
    | mk dt =>
      show (String.mk (ds ++ dt)).utf8ByteSize = _
      simp [byteLen, String.utf8ByteSize_mk]

theorem byteLen_mk_replicate (n : Nat) (c : Char) :
    byteLen (String.mk (List.replicate n c)) = n * c.utf8Size := by
  simp only [byteLen, String.utf8ByteSize_mk]
  induction n with
  | zero => simp
  | succ k ih => simp [List.replicate_succ, ih]; ring

theorem byteLen_eq_zero_iff (s : String) : byteLen s = 0 ↔ s = "" := by
  cases s with
  | mk ds =>
    simp only [byteLen, String.utf8ByteSize_mk, String.utf8Len_eq_zero]
    constructor
    · intro h
      subst h
      rfl
    · intro h
      have hd : ds = [] := congrArg String.data h
      exact hd

namespace Codex

theorem readLineWithLimit_trunc (stream : List UInt8) :
    ∀ (buf : List UInt8) (maxLen total : Nat),
      readLineWithLimit stream buf maxLen total true =
        (buf, total, true, stream.drop (lineLen stream)) := by
  induction stream with
  | nil => intro buf maxLen total; simp [readLineWithLimit, lineLen]
  | cons b rest ih =>
    intro buf maxLen total
    by_cases hb : b = 10
    · subst hb
      simp [readLineWithLimit, lineLen]
    · simp [readLineWithLimit, lineLen, hb, ih]

theorem readLineWithLimit_go (stream : List UInt8) :
    ∀ (buf : List UInt8) (maxLen total : Nat), buf.length ≤ maxLen →
      readLineWithLimit stream buf maxLen total false =
        (buf ++ (stream.take (lineLen stream)).take (maxLen - buf.length),
         total + min (lineLen stream) (maxLen - buf.length),
         decide (maxLen - buf.length < lineLen stream),
         stream.drop (lineLen stream)) := by
  induction stream with
  | nil =>
    intro buf maxLen total h
    simp [readLineWithLimit, lineLen]
  | cons b rest ih =>
    intro buf maxLen total h
    by_cases hfit : buf.length < maxLen
    · by_cases hb : b = 10
      · subst hb
        have h1 : 1 ≤ maxLen - buf.length := by omega
        have htake : (List.take (maxLen - buf.length) [(10 : UInt8)]) = [10] :=
          List.take_of_length_le (by simpa using h1)
        have hmin : min 1 (maxLen - buf.length) = 1 := by omega
        have hdec : decide (maxLen - buf.length < 1) = false := by
          simp; omega
        simp [readLineWithLimit, lineLen, hfit, htake, hmin, hdec]
        omega
      · have hlen : (buf ++ [b]).length ≤ maxLen := by simp; omega
        have ih' := ih (buf ++ [b]) maxLen (total + 1) hlen
        simp [readLineWithLimit, hb, hfit, ih', lineLen]
        obtain ⟨k, hk⟩ : ∃ k, maxLen - buf.length = k + 1 :=
          ⟨maxLen - buf.length - 1, by omega⟩
        have hk2 : maxLen - (buf.length + 1) = k := by omega
        refine ⟨?_, ?_, ?_⟩
        · rw [hk, hk2, List.take_succ_cons]
        · rw [hk, hk2, Nat.succ_min_succ]
          omega
        · omega
    · have heq : buf.length = maxLen := by omega
      have hz : maxLen - buf.length = 0 := by omega
      by_cases hb : b = 10
      · subst hb
        have : decide (maxLen - buf.length < 1) = true := by simp [hz]
        simp [readLineWithLimit, lineLen, hfit, hz]
      · simp [readLineWithLimit, lineLen, hb, hfit, hz, readLineWithLimit_trunc]

/-- C10: `read_line_with_limit` (with the cleared buffer its callers pass)
copies at most `maxLen` bytes of the current line into the buffer, always
consumes the source through the terminating newline, and reports
`truncated` exactly when the line including its terminating newline byte
exceeds `maxLen` — in particular a line of exactly `maxLen` content bytes
plus a newline has `lineLen = maxLen + 1` and is reported truncated even
though every content byte was kept. -/
theorem readLine_contract (stream : List UInt8) (maxLen : Nat) :
    readLine stream maxLen =
      ((stream.take (lineLen stream)).take maxLen,
       min (lineLen stream) maxLen,
       decide (maxLen < lineLen stream),
       stream.drop (lineLen stream)) ∧
    (readLine stream maxLen).1.length ≤ maxLen := by
  have h := readLineWithLimit_go stream [] maxLen 0 (by simp)
  simp only [readLine] at *
  rw [h]
  simp

end Codex

namespace Codex

/-- C3 (amended: the shell-unsafe character list has 15 entries, not 16):
a prompt of at most 800 bytes containing none of the listed characters
with `force_stdin = false` is passed as the final positional argument
after the `--` terminator with stdin null; every other prompt, and any
prompt with `force_stdin = true`, makes the terminator `-` with the
prompt written to the piped stdin. -/
theorem codexPromptRouting (opts : Options) :
    (useStdin opts = false ↔
      (opts.forceStdin = false ∧ byteLen opts.prompt ≤ MAX_CLI_PROMPT_LEN ∧
        ∀ c ∈ opts.prompt.data, c ∉ SPECIAL_CHARS)) ∧
    (useStdin opts = false →
      codexArgv opts = codexArgvPre opts ++ ["--", opts.prompt] ∧
        stdinPayload opts = none) ∧
    (useStdin opts = true →
      codexArgv opts = codexArgvPre opts ++ ["--", "-"] ∧
        stdinPayload opts = some opts.prompt) := by
  refine ⟨?_, ?_, ?_⟩
  · cases hf : opts.forceStdin <;>
      simp [useStdin, needsStdinMode, hf, List.any_eq_false, not_lt]
  · intro hu
    simp [codexArgv, stdinPayload, hu]
  · intro hu
    simp [codexArgv, stdinPayload, hu]

/-- Witness for `codexPromptRouting` at a concrete clean prompt. -/
theorem codexPromptRouting_witness :
    Codex.useStdin
      { prompt := "hello", workingDir := "w", sandbox := SandboxPolicy.ReadOnly,
        sessionId := none, skipGitRepoCheck := false, returnAllMessages := false,
        returnAllMessagesLimit := none, imagePaths := [], model := none,
        yolo := false, profile := none, timeoutSecs := none, forceStdin := false } = false ∧
    Codex.codexArgv
      { prompt := "hello", workingDir := "w", sandbox := SandboxPolicy.ReadOnly,
        sessionId := none, skipGitRepoCheck := false, returnAllMessages := false,
        returnAllMessagesLimit := none, imagePaths := [], model := none,
        yolo := false, profile := none, timeoutSecs := none, forceStdin := false } =
      Codex.codexArgvPre
        { prompt := "hello", workingDir := "w", sandbox := SandboxPolicy.ReadOnly,
          sessionId := none, skipGitRepoCheck := false, returnAllMessages := false,
          returnAllMessagesLimit := none, imagePaths := [], model := none,
          yolo := false, profile := none, timeoutSecs := none, forceStdin := false }
        ++ ["--", "hello"] := by
  have h := codexPromptRouting
    { prompt := "hello", workingDir := "w", sandbox := SandboxPolicy.ReadOnly,
      sessionId := none, skipGitRepoCheck := false, returnAllMessages := false,
      returnAllMessagesLimit := none, imagePaths := [], model := none,
      yolo := false, profile := none, timeoutSecs := none, forceStdin := false }
  have hu : Codex.useStdin
      { prompt := "hello", workingDir := "w", sandbox := SandboxPolicy.ReadOnly,
        sessionId := none, skipGitRepoCheck := false, returnAllMessages := false,
        returnAllMessagesLimit := none, imagePaths := [], model := none,
        yolo := false, profile := none, timeoutSecs := none, forceStdin := false } = false := by
    decide
  exact ⟨hu, (h.2.1 hu).1⟩

/-- Counterexample to C3 as stated: the shell-unsafe character list
`SPECIAL_CHARS` has 15 entries, not 16. -/
theorem specialCharsCountIs15 :
    Codex.SPECIAL_CHARS.length = 15 ∧ ¬ Codex.SPECIAL_CHARS.length = 16 := by
  decide

/-- C6: each of the three security checks independently downgrades its
option and pushes its own distinct warning; with all three requested and
none permitted the effective options are read-only, no yolo, no
skip-git-check with exactly the three warnings. -/
theorem applySecuritySpec (s : SandboxPolicy) (y g : Bool) (sec : SecurityConfig) :
    applySecurityRestrictions s y g sec =
      (if ¬ sec.allowDangerFullAccess ∧ s = SandboxPolicy.DangerFullAccess then
        SandboxPolicy.ReadOnly else s,
       if ¬ sec.allowYolo ∧ y = true then false else y,
       if ¬ sec.allowSkipGitCheck ∧ g = true then false else g,
       (if ¬ sec.allowDangerFullAccess ∧ s = SandboxPolicy.DangerFullAccess then
         [DANGER_WARNING] else []) ++
       (if ¬ sec.allowYolo ∧ y = true then [YOLO_WARNING] else []) ++
       (if ¬ sec.allowSkipGitCheck ∧ g = true then [SKIP_GIT_WARNING] else [])) ∧
    (DANGER_WARNING ≠ YOLO_WARNING ∧ DANGER_WARNING ≠ SKIP_GIT_WARNING ∧
      YOLO_WARNING ≠ SKIP_GIT_WARNING) ∧
    applySecurityRestrictions SandboxPolicy.DangerFullAccess true true
        { allowDangerFullAccess := false, allowYolo := false, allowSkipGitCheck := false } =
      (SandboxPolicy.ReadOnly, false, false,
        [DANGER_WARNING, YOLO_WARNING, SKIP_GIT_WARNING]) := by
  refine ⟨?_, by decide, by decide⟩
  obtain ⟨a, b, c⟩ := sec
  cases s <;> cases y <;> cases g <;> cases a <;> cases b <;> cases c <;> rfl

end Codex

namespace Transport

/-- C7: framing auto-detection skips leading ASCII whitespace and decides
on the first subsequent byte `c`: `Content-Length:` prefix at `c = 'C'`
gives LSP; `c = '{'` gives JSONL; `c = 'C'` with fewer than 15 bytes
available reports "need more data"; any other first byte gives JSONL. -/
theorem detectFormatClauses (buf : List UInt8) (i : Nat)
    (hf : buf.findIdx? (fun b => ! isAsciiWhitespaceByte b) = some i) :
    ((buf.getD i 0 = 67 ∧ CONTENT_LENGTH_BYTES.isPrefixOf (buf.drop i) = true) →
        detectFormat buf = some FramingFormat.Lsp) ∧
    (buf.getD i 0 = 123 → detectFormat buf = some FramingFormat.JsonLines) ∧
    ((buf.getD i 0 = 67 ∧ buf.length - i < 15) → detectFormat buf = none) ∧
    ((¬ buf.getD i 0 = 67 ∧ ¬ buf.getD i 0 = 123) →
        detectFormat buf = some FramingFormat.JsonLines) := by
  have hi : i < buf.length := by
    have hf' := hf
    rw [List.findIdx?_eq_some_iff_getElem] at hf'
    exact hf'.1
  refine ⟨?_, ?_, ?_, ?_⟩
  · rintro ⟨hc, hp⟩
    simp [List.getD] at hc
    simp [detectFormat, hf, Nat.not_le.mpr hi, hc, hp]
  · intro hc
    simp [List.getD] at hc
    simp [detectFormat, hf, Nat.not_le.mpr hi, hc]
  · rintro ⟨hc, hlen⟩
    simp [List.getD] at hc
    have hnp : CONTENT_LENGTH_BYTES.isPrefixOf (buf.drop i) = false := by
      by_contra hcon
      have hp : CONTENT_LENGTH_BYTES <+: buf.drop i := by
        rw [← List.isPrefixOf_iff_prefix]
        simpa using hcon
      have hle := hp.length_le
      have h15 : CONTENT_LENGTH_BYTES.length = 15 := by decide
      rw [h15, List.length_drop] at hle
      omega
    simp [detectFormat, hf, Nat.not_le.mpr hi, hc, hnp, hlen]
  · rintro ⟨h67, h123⟩
    simp [List.getD] at h67 h123
    simp [detectFormat, hf, Nat.not_le.mpr hi, h67, h123]

/-- Witness for `detectFormatClauses`: an LSP-framed buffer is detected
as LSP. -/
theorem detectFormatClauses_witness :
    detectFormat (asciiBytes "Content-Length: 2\r\n\r\n12") = some FramingFormat.Lsp := by
  have h := detectFormatClauses (asciiBytes "Content-Length: 2\r\n\r\n12") 0 (by decide)
  exact h.1 ⟨by decide, by decide⟩

end Transport

namespace Grok

/-- C9: the time-context block is prepended to the search user message
exactly when the query contains a Chinese time keyword (case-sensitive
substring) or an English time keyword (case-insensitively, via the
lowercased query); the `web_fetch` user message is the plain URL plus the
fixed instruction, with no time-context injection. -/
theorem timeContextInjection (timeInfo query platform : String)
    (minResults maxResults : Int) (url : String) :
    (needsTimeContext query = true ↔
      ((∃ kw ∈ CN_TIME_KEYWORDS, kw.data <:+: query.data) ∨
       (∃ kw ∈ EN_TIME_KEYWORDS, kw.data <:+: query.toLower.data))) ∧
    (searchUserContent timeInfo query platform minResults maxResults =
      (if needsTimeContext query then timeInfo ++ "\n" else "") ++ query ++
        (if platform ≠ "" then
          "\n\nYou should search the web for the information you need, and focus on these platform: "
            ++ platform
        else "") ++
        (if maxResults > 0 then
          "\n\nYou should return the results in a JSON format, and the results should at least be "
            ++ toString minResults ++ " and at most be " ++ toString maxResults ++ " results."
        else "")) ∧
    fetchUserContent url = url ++ "\n获取该网页内容并返回其结构化Markdown格式" := by
  refine ⟨?_, ?_, rfl⟩
  · have hb : needsTimeContext query =
        (CN_TIME_KEYWORDS.any (fun kw => containsSub query kw) ||
          EN_TIME_KEYWORDS.any (fun kw => containsSub query.toLower kw)) := by
      unfold needsTimeContext
      by_cases h1 : CN_TIME_KEYWORDS.any (fun kw => containsSub query kw) = true <;>
        by_cases h2 : EN_TIME_KEYWORDS.any (fun kw => containsSub query.toLower kw) = true <;>
          simp [h1, h2]
    rw [hb]
    simp [List.any_eq_true, containsSub]
  · unfold searchUserContent
    by_cases hp : platform ≠ "" <;> by_cases hr : maxResults > 0 <;>
      by_cases ht : needsTimeContext query = true <;>
        simp [hp, hr, ht, String.append_assoc]

/-- C5 (amended: on HTTP 429 with a parseable `Retry-After` header the
header value replaces the computed wait and is not capped by `max_wait`):
the streamer issues at most `max_attempts + 1` sends; when no 429 carries
a usable `Retry-After`, every wait equals
`min(multiplier * 2^k + jitter_k, max_wait)` and hence is at most
`max_wait`; a first response with a non-2xx non-retryable status stops
after exactly one attempt with an error. -/
theorem retryPolicy (maxAttempts : Nat) (multiplier maxWait : ℚ)
    (responses : Nat → HttpAttempt) (jitter : Nat → ℚ) :
    (executeStreamWithRetry maxAttempts multiplier maxWait responses jitter).2.1
        ≤ maxAttempts + 1 ∧
    ((∀ k st ra b c, responses k = HttpAttempt.response st ra b c →
        st = 429 → ra = none) →
      ∀ w ∈ (executeStreamWithRetry maxAttempts multiplier maxWait responses jitter).2.2,
        w ≤ maxWait) ∧
    (∀ st ra b c, responses 0 = HttpAttempt.response st ra b c →
      ¬ (200 ≤ st ∧ st ≤ 299) → isRetryableStatus st = false →
      (executeStreamWithRetry maxAttempts multiplier maxWait responses jitter).2.1 = 1 ∧
        (executeStreamWithRetry maxAttempts multiplier maxWait responses jitter).1 =
          Except.error ("API request failed with HTTP " ++ toString st ++ ": " ++ b)) := by
  have hle : ∀ (fuel attempt : Nat),
      (retryAux maxAttempts multiplier maxWait responses jitter attempt fuel).2.1
        ≤ attempt + fuel := by
    intro fuel
    induction fuel with
    | zero => intro attempt; simp [retryAux]
    | succ n ih =>
      intro attempt
      unfold retryAux
      cases hr : responses attempt with
      | response st ra b c =>
        by_cases h2 : 200 ≤ st ∧ st ≤ 299
        · simp [h2] <;> omega
        · by_cases h3 : isRetryableStatus st = false ∨ attempt = maxAttempts
          · simp [h2, h3] <;> omega
          · have := ih (attempt + 1)
            simp [h2, h3] <;> omega
      | netError msg =>
        by_cases h4 : attempt = maxAttempts
        · simp [h4] <;> omega
        · have := ih (attempt + 1)
          simp [h4] <;> omega
  have hw : ∀ (hra : ∀ k st ra b c, responses k = HttpAttempt.response st ra b c →
        st = 429 → ra = none) (fuel attempt : Nat),
      ∀ w ∈ (retryAux maxAttempts multiplier maxWait responses jitter attempt fuel).2.2,
        w ≤ maxWait := by
    intro hra fuel
    induction fuel with
    | zero => intro attempt w hw; simp [retryAux] at hw
    | succ n ih =>
      intro attempt w hwmem
      unfold retryAux at hwmem
      cases hr : responses attempt with
      | response st ra b c =>
        rw [hr] at hwmem
        by_cases h2 : 200 ≤ st ∧ st ≤ 299
        · simp [h2] at hwmem
        · by_cases h3 : isRetryableStatus st = false ∨ attempt = maxAttempts
          · simp [h2, h3] at hwmem
          · simp [h2, h3] at hwmem
            rcases hwmem with hfirst | hrest
            · subst hfirst
              by_cases h429 : st = 429
              · have : ra = none := hra attempt st ra b c hr h429
                simp [h429, this, exponentialBackoffWithJitter]
              · simp [h429, exponentialBackoffWithJitter]
            · exact ih (attempt + 1) w hrest
      | netError msg =>
        rw [hr] at hwmem
        by_cases h4 : attempt = maxAttempts
        · simp [h4] at hwmem
        · simp [h4] at hwmem
          rcases hwmem with hfirst | hrest
          · subst hfirst
            simp [exponentialBackoffWithJitter]
          · exact ih (attempt + 1) w hrest
  refine ⟨?_, ?_, ?_⟩
  · have := hle (maxAttempts + 1) 0
    simpa [executeStreamWithRetry] using this
  · intro hra w hwmem
    exact hw hra (maxAttempts + 1) 0 w hwmem
  · intro st ra b c hr hn2 hnr
    unfold executeStreamWithRetry retryAux
    rw [hr]
    simp [hn2, hnr]

end Grok

namespace Grok

/-- Counterexample to C5 as stated: a 429 response carrying a parseable
`Retry-After` of 7 seconds with `max_wait = 5` makes the streamer wait 7
seconds — the wait is not the backoff formula and exceeds `max_wait`. -/
theorem retryAfterWaitExceedsMaxWait :
    (executeStreamWithRetry 2 1 5
        (fun k =>
          if k = 0 then HttpAttempt.response 429 (some 7) "too many requests" ""
          else HttpAttempt.response 200 none "" "ok")
        (fun _ => 0)).2.2 = [7] ∧
    ¬ ((7 : ℚ) ≤ 5) := by
  constructor
  · rfl
  · norm_num

/-- Witness for `retryPolicy`: a 503-then-200 run keeps every wait at or
below `max_wait`, and a first-response 404 stops after one attempt. -/
theorem retryPolicy_witness :
    ((executeStreamWithRetry 2 1 5
        (fun k =>
          if k = 0 then HttpAttempt.response 503 none "unavailable" ""
          else HttpAttempt.response 200 none "" "ok")
        (fun _ => 0)).2.1 ≤ 3) ∧
    (∀ w ∈ (executeStreamWithRetry 2 1 5
        (fun k =>
          if k = 0 then HttpAttempt.response 503 none "unavailable" ""
          else HttpAttempt.response 200 none "" "ok")
        (fun _ => 0)).2.2, w ≤ 5) ∧
    ((executeStreamWithRetry 2 1 5
        (fun _ => HttpAttempt.response 404 none "not found" "")
        (fun _ => 0)).2.1 = 1) := by
  refine ⟨(retryPolicy 2 1 5 _ _).1, (retryPolicy 2 1 5 _ _).2.1 ?_,
    ((retryPolicy 2 1 5 _ _).2.2 404 none "not found" "" rfl (by omega) (by decide)).1⟩
  intro k st ra b c h h429
  by_cases hk : k = 0 <;> simp [hk] at h
  · rcases h with ⟨hst, -⟩
    omega
  · rcases h with ⟨hst, -⟩
    omega

end Grok

namespace Codex

/-- C8 (amended: the codex warning suggesting `return_all_messages` is
appended exactly when `agent_messages` is empty, regardless of
`return_all_messages` or `all_messages`): outside the timeout and
overflow paths, an empty `session_id` with no prior error flips the
result to failure with the SESSION_ID error, any other result keeps its
success and error, and the warning is appended precisely on empty
`agent_messages`. -/
theorem enforceRequiredFieldsSpec (r : CodexResult) :
    ((r.sessionId = "" ∧ r.error = none) →
      (enforceRequiredFields r ValidationMode.Full).success = false ∧
        (enforceRequiredFields r ValidationMode.Full).error = some SESSION_ID_ERROR) ∧
    (¬ (r.sessionId = "" ∧ r.error = none) →
      (enforceRequiredFields r ValidationMode.Full).success = r.success ∧
        (enforceRequiredFields r ValidationMode.Full).error = r.error) ∧
    ((enforceRequiredFields r ValidationMode.Full).warnings =
      if r.agentMessages = "" then pushWarning r.warnings NO_AGENT_MESSAGES_WARNING
      else r.warnings) := by
  by_cases h1 : r.sessionId = "" ∧ r.error = none <;>
    by_cases h2 : r.agentMessages = "" <;>
      simp [enforceRequiredFields, h1, h2]

/-- Witness for `enforceRequiredFieldsSpec` at a concrete result with an
empty session id. -/
theorem enforceRequiredFieldsSpec_witness :
    (enforceRequiredFields
      { success := true, sessionId := "", agentMessages := "m",
        agentMessagesTruncated := false, allMessages := [],
        allMessagesTruncated := false, error := none, warnings := none }
      ValidationMode.Full).success = false ∧
    (enforceRequiredFields
      { success := true, sessionId := "", agentMessages := "m",
        agentMessagesTruncated := false, allMessages := [],
        allMessagesTruncated := false, error := none, warnings := none }
      ValidationMode.Full).error = some SESSION_ID_ERROR := by
  exact (enforceRequiredFieldsSpec
    { success := true, sessionId := "", agentMessages := "m",
      agentMessagesTruncated := false, allMessages := [],
      allMessagesTruncated := false, error := none, warnings := none }).1 ⟨rfl, rfl⟩

/-- Counterexample to C8 as stated: with `return_all_messages = true` and
a non-empty `all_messages`, the warning suggesting `return_all_messages`
is still appended when `agent_messages` is empty. -/
theorem codexWarningDespiteAllMessages :
    (runModel true none (fun _ => 0)
        [ReadEvent.parsed (Json.obj [("thread_id", Json.str "T")])]
        true (some 0) "").agentMessages = "" ∧
    (runModel true none (fun _ => 0)
        [ReadEvent.parsed (Json.obj [("thread_id", Json.str "T")])]
        true (some 0) "").allMessages.length = 1 ∧
    (runModel true none (fun _ => 0)
        [ReadEvent.parsed (Json.obj [("thread_id", Json.str "T")])]
        true (some 0) "").warnings = some NO_AGENT_MESSAGES_WARNING := by
  refine ⟨rfl, rfl, rfl⟩

end Codex

theorem append_ne_empty_left (s t : String) (h : s ≠ "") : s ++ t ≠ "" := by
  intro hc
  apply h
  have hb : byteLen s + byteLen t = 0 := by
    have hcl := congrArg byteLen hc
    rwa [byteLen_append, show byteLen "" = 0 from rfl] at hcl
  exact (byteLen_eq_zero_iff s).mp (by omega)

namespace Codex

theorem recordParseError_error (r : CodexResult) (m l : String) :
    (recordParseError r m l).success = false ∧
    ∃ e, (recordParseError r m l).error = some e ∧ e ≠ "" := by
  have hne : ("JSON parse error: " ++ m ++ ". Line: " ++ l) ≠ "" := by
    apply append_ne_empty_left
    apply append_ne_empty_left
    apply append_ne_empty_left
    decide
  unfold recordParseError
  cases hre : r.error with
  | none => exact ⟨rfl, _, by simp [hre], hne⟩
  | some existing =>
    by_cases hex : existing ≠ ""
    · exact ⟨rfl, existing ++ "\n" ++ ("JSON parse error: " ++ m ++ ". Line: " ++ l),
        by simp [hre, hex], append_ne_empty_left _ _ (append_ne_empty_left _ _ hex)⟩
    · exact ⟨rfl, "JSON parse error: " ++ m ++ ". Line: " ++ l,
        by simp [hre, hex], hne⟩

theorem recordParseError_errInv (r : CodexResult) (m l : String) :
    ErrInv (recordParseError r m l) := by
  obtain ⟨hs, e, he, hne⟩ := recordParseError_error r m l
  refine ⟨?_, ?_⟩
  · intro e' he'
    rw [he] at he'
    cases he'
    exact hne
  · intro _
    rw [he]
    simp

theorem stepAllMessages_success_error (ram : Bool) (lim : Nat) (ser : Json → Nat)
    (st : LoopState) (j : Json) :
    (stepAllMessages ram lim ser st j).result.success = st.result.success ∧
    (stepAllMessages ram lim ser st j).result.error = st.result.error := by
  unfold stepAllMessages
  repeat' split
  all_goals try exact ⟨rfl, rfl⟩
  all_goals (dsimp only; split <;> exact ⟨rfl, rfl⟩)

theorem stepThreadId_success_error (st : LoopState) (j : Json) :
    (stepThreadId st j).result.success = st.result.success ∧
    (stepThreadId st j).result.error = st.result.error := by
  unfold stepThreadId
  repeat' split
  all_goals try exact ⟨rfl, rfl⟩
  all_goals (dsimp only; split <;> exact ⟨rfl, rfl⟩)

theorem stepAgentMessage_success_error (st : LoopState) (j : Json) :
    (stepAgentMessage st j).result.success = st.result.success ∧
    (stepAgentMessage st j).result.error = st.result.error := by
  unfold stepAgentMessage
  repeat' split
  all_goals try exact ⟨rfl, rfl⟩
  all_goals (dsimp only; split <;> exact ⟨rfl, rfl⟩)

theorem stepFailType_not_fail (st : LoopState) (j : Json)
    (h : isFailType j = false) : stepFailType st j = st := by
  unfold stepFailType
  unfold isFailType at h
  cases hty : (j.get "type").bind Json.asStr with
  | none => simp [hty]
  | some t =>
    rw [hty] at h
    simp only [] at h
    simp [hty, h]

theorem stepFailType_fail (st : LoopState) (j : Json)
    (h : isFailType j = true) :
    (stepFailType st j).result.success = false ∧
    (stepFailType st j).result.error =
      (match extractedErrMsg j with
       | some msg => some ("codex error: " ++ msg)
       | none => st.result.error) := by
  unfold stepFailType
  unfold isFailType at h
  cases hty : (j.get "type").bind Json.asStr with
  | none => rw [hty] at h; cases h
  | some t =>
    rw [hty] at h
    simp only [] at h
    unfold extractedErrMsg topMessageFallback
    cases herr : j.get "error" with
    | none =>
      cases hmsg : (j.get "message").bind Json.asStr with
      | none => simp [hty, h, herr, hmsg]
      | some msg => simp [hty, h, herr, hmsg]
    | some errVal =>
      by_cases hobj : errVal.isObj = true
      · cases hem : (errVal.get "message").bind Json.asStr with
        | none => simp [hty, h, herr, hobj, hem]
        | some msg => simp [hty, h, herr, hobj, hem]
      · cases hmsg : (j.get "message").bind Json.asStr with
        | none => simp [hty, h, herr, hobj, hmsg]
        | some msg => simp [hty, h, herr, hobj, hmsg]

theorem processParsedLine_errInv (ram : Bool) (lim : Nat) (ser : Json → Nat)
    (st : LoopState) (j : Json)
    (hmsg : isFailType j = true → extractedErrMsg j ≠ none)
    (hinv : ErrInv st.result) :
    ErrInv (processParsedLine ram lim ser st j).result := by
  unfold processParsedLine
  have h1 := stepAllMessages_success_error ram lim ser st j
  have h2 := stepThreadId_success_error (stepAllMessages ram lim ser st j) j
  have h3 := stepAgentMessage_success_error
    (stepThreadId (stepAllMessages ram lim ser st j) j) j
  have hinv3 : ErrInv (stepAgentMessage
      (stepThreadId (stepAllMessages ram lim ser st j) j) j).result := by
    unfold ErrInv at hinv ⊢
    rw [h3.1, h3.2, h2.1, h2.2, h1.1, h1.2]
    exact hinv
  by_cases hft : isFailType j = true
  · obtain ⟨hsucc, herrr⟩ := stepFailType_fail _ j hft
    cases hx : extractedErrMsg j with
    | none => exact absurd hx (hmsg hft)
    | some msg =>
      rw [hx] at herrr
      refine ⟨?_, ?_⟩
      · intro e he
        rw [herrr] at he
        cases he
        exact append_ne_empty_left _ _ (by decide)
      · intro _
        rw [herrr]
        simp
  · have hb : isFailType j = false := by
      cases hfb : isFailType j
      · rfl
      · exact absurd hfb hft
    rw [stepFailType_not_fail _ j hb]
    exact hinv3

end Codex

namespace Codex

theorem markSeen_result (st : LoopState) :
    (if ¬ st.parseErrorSeen then { st with parseErrorSeen := true } else st).result
      = st.result := by
  split <;> rfl

theorem processStdout_errInv (ram : Bool) (lim : Nat) (ser : Json → Nat)
    (events : List ReadEvent) :
    ∀ st : LoopState,
      (∀ j, ReadEvent.parsed j ∈ events →
        (isFailType j = true → extractedErrMsg j ≠ none)) →
      ErrInv st.result →
      ErrInv (processStdout ram lim ser events st).result := by
  induction events with
  | nil => intro st _ hi; exact hi
  | cons ev rest ih =>
    intro st hgood hi
    have hgood' : ∀ j, ReadEvent.parsed j ∈ rest →
        (isFailType j = true → extractedErrMsg j ≠ none) :=
      fun j hj => hgood j (List.mem_cons_of_mem _ hj)
    cases ev with
    | ioError m =>
      simpa [processStdout] using recordParseError_errInv st.result m ""
    | truncatedLine =>
      simp only [processStdout]
      apply ih _ hgood'
      have hov :
          ErrInv { st.result with success := false, error := some LINE_OVERFLOW_ERROR } := by
        refine ⟨fun e he => ?_, fun _ => by simp⟩
        simp at he
        subst he
        decide
      split
      · exact hov
      · exact hov
    | emptyLine =>
      simp only [processStdout]
      exact ih _ hgood' hi
    | unparsable content m =>
      simp only [processStdout]
      by_cases hp : st.parseErrorSeen = true
      · simp only [hp, if_true]
        exact ih _ hgood' hi
      · have hp' : st.parseErrorSeen = false := by
          cases hq : st.parseErrorSeen
          · rfl
          · exact absurd hq hp
        simp only [hp', Bool.false_eq_true, if_false]
        apply ih _ hgood'
        have hrec := recordParseError_errInv st.result m content
        split
        · exact hrec
        · exact hrec
    | parsed j =>
      simp only [processStdout]
      by_cases hp : st.parseErrorSeen = true
      · simp only [hp, if_true]
        exact ih _ hgood' hi
      · have hp' : st.parseErrorSeen = false := by
          cases hq : st.parseErrorSeen
          · rfl
          · exact absurd hq hp
        simp only [hp', Bool.false_eq_true, if_false]
        exact ih _ hgood'
          (processParsedLine_errInv ram lim ser st j
            (hgood j (List.mem_cons_self _ _)) hi)

theorem enforce_errInv (r : CodexResult) (hinv : ErrInv r) :
    ErrInv (enforceRequiredFields r ValidationMode.Full) := by
  have hSID : ErrInv { r with success := false, error := some SESSION_ID_ERROR } := by
    refine ⟨fun e he => ?_, fun _ => by simp⟩
    simp at he
    subst he
    decide
  unfold enforceRequiredFields
  split
  · exact hinv
  · dsimp only
    split
    · split
      · exact hSID
      · exact hSID
    · split
      · exact hinv
      · exact hinv

end Codex

namespace Codex

theorem finishRun_errInv (st : LoopState) (exitSuccess : Bool) (exitCode : Option Int)
    (stderrOutput : String) (hinv : ErrInv st.result) :
    ErrInv (finishRun st exitSuccess exitCode stderrOutput) := by
  unfold finishRun
  apply enforce_errInv
  dsimp only
  split
  · have hne : (match st.result.error with
        | some err => err
        | none => "codex command failed with exit code: " ++ exitCodeRepr exitCode) ≠ "" := by
      cases hre : st.result.error with
      | some err => exact hinv.1 err hre
      | none => exact append_ne_empty_left _ _ (by decide)
    split
    · refine ⟨fun e he => ?_, fun _ => by simp⟩
      simp at he
      subst he
      exact append_ne_empty_left _ _ (append_ne_empty_left _ _ hne)
    · refine ⟨fun e he => ?_, fun _ => by simp⟩
      simp at he
      subst he
      exact hne
  · split
    · exact hinv
    · exact hinv

end Codex

theorem joinLines_ne_empty (l : List String) (hl : l ≠ [])
    (h : ∀ s ∈ l, s ≠ "") : Gemini.joinLines l ≠ "" := by
  cases l with
  | nil => exact absurd rfl hl
  | cons a rest =>
    have hgen : ∀ (rs : List String) (acc : String), acc ≠ "" →
        rs.foldl (fun acc s => acc ++ "\n" ++ s) acc ≠ "" := by
      intro rs
      induction rs with
      | nil => intro acc hacc; exact hacc
      | cons b bs ih =>
        intro acc hacc
        exact ih _ (append_ne_empty_left _ _ (append_ne_empty_left _ _ hacc))
    exact hgen rest a (h a (List.mem_cons_self _ _))

namespace Gemini

theorem gStepAllMessages_se (j : Json) (r : GeminiResult) (ram : Bool) :
    (gStepAllMessages j r ram).success = r.success ∧
    (gStepAllMessages j r ram).error = r.error := by
  unfold gStepAllMessages
  split <;> exact ⟨rfl, rfl⟩

theorem gStepSessionId_se (j : Json) (r : GeminiResult) :
    (gStepSessionId j r).success = r.success ∧
    (gStepSessionId j r).error = r.error := by
  unfold gStepSessionId
  repeat' split
  all_goals exact ⟨rfl, rfl⟩

theorem gStepAgent_se (j : Json) (r : GeminiResult) :
    (gStepAgent j r).success = r.success ∧
    (gStepAgent j r).error = r.error := by
  unfold gStepAgent
  repeat' split
  all_goals exact ⟨rfl, rfl⟩

theorem gStepError_not (j : Json) (r : GeminiResult)
    (h : isErrorEvent j = false) : gStepError j r = r := by
  unfold gStepError
  simp [h]

theorem gStepError_fail (j : Json) (r : GeminiResult)
    (h : isErrorEvent j = true) :
    (gStepError j r).success = false ∧
    (gStepError j r).error =
      (match extractedErrMsg j with
       | some msg => some ("gemini error: " ++ msg)
       | none => r.error) := by
  unfold gStepError extractedErrMsg
  cases herr : j.get "error" with
  | none =>
    cases hmsg : (j.get "message").bind Json.asStr with
    | none => simp [h, herr, hmsg]
    | some msg => simp [h, herr, hmsg]
  | some errVal =>
    by_cases hobj : errVal.isObj = true
    · cases hem : (errVal.get "message").bind Json.asStr with
      | none => simp [h, herr, hobj, hem]
      | some msg => simp [h, herr, hobj, hem]
    · cases hmsg : (j.get "message").bind Json.asStr with
      | none => simp [h, herr, hobj, hmsg]
      | some msg => simp [h, herr, hobj, hmsg]

theorem processJsonLine_errInv (j : Json) (r : GeminiResult) (ram : Bool)
    (hmsg : isErrorEvent j = true → extractedErrMsg j ≠ none)
    (hinv : ErrInv r) : ErrInv (processJsonLine j r ram) := by
  unfold processJsonLine
  dsimp only
  have h1 := gStepAllMessages_se j r ram
  have h2 := gStepSessionId_se j (gStepAllMessages j r ram)
  have hinv2 : ErrInv (gStepSessionId j (gStepAllMessages j r ram)) := by
    unfold ErrInv at hinv ⊢
    rw [h2.1, h2.2, h1.1, h1.2]
    exact hinv
  split
  · exact hinv2
  · have h3 := gStepAgent_se j (gStepSessionId j (gStepAllMessages j r ram))
    have hinv3 : ErrInv (gStepAgent j (gStepSessionId j (gStepAllMessages j r ram))) := by
      unfold ErrInv at hinv2 ⊢
      rw [h3.1, h3.2]
      exact hinv2
    by_cases hee : isErrorEvent j = true
    · obtain ⟨hsucc, herrr⟩ := gStepError_fail j _ hee
      cases hx : extractedErrMsg j with
      | none => exact absurd hx (hmsg hee)
      | some msg =>
        rw [hx] at herrr
        refine ⟨fun e he => ?_, fun _ => ?_⟩
        · rw [herrr] at he
          cases he
          exact append_ne_empty_left _ _ (by decide)
        · rw [herrr]
          simp
    · have hb : isErrorEvent j = false := by
        cases hq : isErrorEvent j
        · rfl
        · exact absurd hq hee
      rw [gStepError_not j _ hb]
      exact hinv3

theorem processGeminiStdout_errInv (ram : Bool) (lines : List GLine) :
    ∀ st : GLoopState,
      (∀ j, GLine.json j ∈ lines →
        (isErrorEvent j = true → extractedErrMsg j ≠ none)) →
      ErrInv st.result →
      ErrInv (processGeminiStdout ram lines st).result := by
  induction lines with
  | nil => intro st _ hi; exact hi
  | cons l rest ih =>
    intro st hgood hi
    have hgood' : ∀ j, GLine.json j ∈ rest →
        (isErrorEvent j = true → extractedErrMsg j ≠ none) :=
      fun j hj => hgood j (List.mem_cons_of_mem _ hj)
    cases l with
    | json j =>
      simp only [processGeminiStdout]
      exact ih _ hgood'
        (processJsonLine_errInv j st.result ram (hgood j (List.mem_cons_self _ _)) hi)
    | nonJson content =>
      simp only [processGeminiStdout]
      exact ih _ hgood' hi

theorem gfinal_errInv (r : GeminiResult) (newError : String) (hnew : newError ≠ "") :
    ErrInv
      { r with
        success := false,
        error :=
          (match r.error.filter (fun s => s ≠ "") with
           | some prev => some (prev ++ "\n" ++ newError)
           | none => some newError) } := by
  cases hf : r.error.filter (fun s => s ≠ "") with
  | none =>
    refine ⟨fun e he => ?_, fun _ => by simp [hf]⟩
    simp [hf] at he
    subst he
    exact hnew
  | some prev =>
    have hprev : prev ≠ "" := by
      cases hre : r.error with
      | none => rw [hre] at hf; simp [Option.filter] at hf
      | some x =>
        rw [hre] at hf
        by_cases hx : x ≠ ""
        · simp [Option.filter, hx] at hf
          rw [← hf]
          exact hx
        · simp [Option.filter, hx] at hf
    refine ⟨fun e he => ?_, fun _ => by simp [hf]⟩
    simp [hf] at he
    subst he
    exact append_ne_empty_left _ _ (append_ne_empty_left _ _ hprev)

theorem genforce_errInv (r : GeminiResult) (hinv : ErrInv r) :
    ErrInv (enforceRequiredFields r) := by
  unfold enforceRequiredFields
  dsimp only
  split
  · rename_i hne
    apply gfinal_errInv
    apply joinLines_ne_empty _ hne
    intro s hs
    unfold requiredErrors at hs
    rcases List.mem_append.mp hs with h | h
    · split at h
      · simp at h
        subst h
        decide
      · simp at h
    · split at h
      · simp at h
        subst h
        decide
      · split at h
        · simp at h
          subst h
          decide
        · simp at h
  · exact hinv

theorem finishGeminiRun_errInv (st : GLoopState) (exitSuccess : Bool)
    (exitCode : Option Int) (stderrOutput : String) (hinv : ErrInv st.result) :
    ErrInv (finishGeminiRun st exitSuccess exitCode stderrOutput) := by
  unfold finishGeminiRun
  apply genforce_errInv
  dsimp only
  split
  · have hne : (match st.result.error with
        | some err => err
        | none => "gemini command failed with exit code: " ++ exitCodeRepr exitCode) ≠ "" := by
      cases hre : st.result.error with
      | some err => exact hinv.1 err hre
      | none => exact append_ne_empty_left _ _ (by decide)
    have hf1 : (if stderrOutput ≠ "" then
        (match st.result.error with
         | some err => err
         | none => "gemini command failed with exit code: " ++ exitCodeRepr exitCode)
          ++ "\nStderr: " ++ stderrOutput
      else
        (match st.result.error with
         | some err => err
         | none => "gemini command failed with exit code: " ++ exitCodeRepr exitCode)) ≠ "" := by
      split
      · exact append_ne_empty_left _ _ (append_ne_empty_left _ _ hne)
      · exact hne
    refine ⟨fun e he => ?_, fun _ => by simp⟩
    simp only [] at he
    split at he
    · cases he
      exact append_ne_empty_left _ _ (append_ne_empty_left _ _ hf1)
    · cases he
      exact hf1
  · split
    · refine ⟨fun e he => ?_, fun _ => by simp⟩
      simp only [] at he
      cases he
      exact append_ne_empty_left _ _ (by decide)
    · exact hinv

end Gemini

/-- C1 (amended: a `fail`/`error`-typed stdout event that carries no
extractable message — no `error.message` object field and no string
`message` field — sets `success = false` while leaving `error` unset;
under the proviso that every such event carries an extractable message,
`success = false` implies a non-empty `error` in both the codex and
gemini orchestrators). -/
theorem failureImpliesNonemptyError :
    (∀ (ram : Bool) (lim : Option Nat) (ser : Json → Nat)
       (events : List Codex.ReadEvent) (exitSuccess : Bool)
       (exitCode : Option Int) (stderrOutput : String),
      (∀ j, Codex.ReadEvent.parsed j ∈ events →
        Codex.isFailType j = true → Codex.extractedErrMsg j ≠ none) →
      (Codex.runModel ram lim ser events exitSuccess exitCode stderrOutput).success = false →
      ∃ e, (Codex.runModel ram lim ser events exitSuccess exitCode stderrOutput).error
            = some e ∧ e ≠ "") ∧
    (∀ (ram : Bool) (lines : List Gemini.GLine) (exitSuccess : Bool)
       (exitCode : Option Int) (stderrOutput : String),
      (∀ j, Gemini.GLine.json j ∈ lines →
        Gemini.isErrorEvent j = true → Gemini.extractedErrMsg j ≠ none) →
      (Gemini.runModel ram lines exitSuccess exitCode stderrOutput).success = false →
      ∃ e, (Gemini.runModel ram lines exitSuccess exitCode stderrOutput).error
            = some e ∧ e ≠ "") := by
  constructor
  · intro ram lim ser events exitSuccess exitCode stderrOutput hgood hfail
    have hinit : Codex.ErrInv Codex.initialResult := by
      refine ⟨fun e he => ?_, fun h => ?_⟩
      · cases he
      · cases h
    have hloop := Codex.processStdout_errInv ram (Codex.messageLimitOf lim) ser events
      { result := Codex.initialResult, parseErrorSeen := false, allMessagesSize := 0 }
      hgood hinit
    have hfin := Codex.finishRun_errInv _ exitSuccess exitCode stderrOutput hloop
    have hne := hfin.2 hfail
    cases herr : (Codex.runModel ram lim ser events exitSuccess exitCode stderrOutput).error with
    | none => exact absurd herr hne
    | some e => exact ⟨e, rfl, hfin.1 e herr⟩
  · intro ram lines exitSuccess exitCode stderrOutput hgood hfail
    have hinit : Gemini.ErrInv (Gemini.initialResult ram) := by
      refine ⟨fun e he => ?_, fun h => ?_⟩
      · cases he
      · cases h
    have hloop := Gemini.processGeminiStdout_errInv ram lines
      { result := Gemini.initialResult ram, nonJsonLines := [], validJsonSeen := false }
      hgood hinit
    have hfin := Gemini.finishGeminiRun_errInv _ exitSuccess exitCode stderrOutput hloop
    have hne := hfin.2 hfail
    cases herr : (Gemini.runModel ram lines exitSuccess exitCode stderrOutput).error with
    | none => exact absurd herr hne
    | some e => exact ⟨e, rfl, hfin.1 e herr⟩

/-- Counterexample to C1 as stated: a codex run whose stream carries a
`turn_failed`-typed event with no message ends with `success = false` and
`error = none`. -/
theorem codexFailureWithoutError :
    (Codex.runModel false none (fun _ => 0)
      [Codex.ReadEvent.parsed (Json.obj [("thread_id", Json.str "T")]),
       Codex.ReadEvent.parsed (Json.obj [("item",
         Json.obj [("type", Json.str "agent_message"), ("text", Json.str "hi")])]),
       Codex.ReadEvent.parsed (Json.obj [("type", Json.str "turn_failed")])]
      true (some 0) "").success = false ∧
    (Codex.runModel false none (fun _ => 0)
      [Codex.ReadEvent.parsed (Json.obj [("thread_id", Json.str "T")]),
       Codex.ReadEvent.parsed (Json.obj [("item",
         Json.obj [("type", Json.str "agent_message"), ("text", Json.str "hi")])]),
       Codex.ReadEvent.parsed (Json.obj [("type", Json.str "turn_failed")])]
      true (some 0) "").error = none := by
  exact ⟨rfl, rfl⟩

/-- Witness for `failureImpliesNonemptyError`: a failed event that does
carry a message yields a non-empty error. -/
theorem failureImpliesNonemptyError_witness :
    ∃ e, (Codex.runModel false none (fun _ => 0)
      [Codex.ReadEvent.parsed (Json.obj
        [("thread_id", Json.str "T"), ("type", Json.str "turn_failed"),
         ("message", Json.str "boom")])]
      true (some 0) "").error = some e ∧ e ≠ "" := by
  apply failureImpliesNonemptyError.1 false none (fun _ => 0)
    [Codex.ReadEvent.parsed (Json.obj
      [("thread_id", Json.str "T"), ("type", Json.str "turn_failed"),
       ("message", Json.str "boom")])]
    true (some 0) ""
  · intro j hj hf
    simp at hj
    subst hj
    decide
  · rfl

namespace Codex

theorem enforce_fields (r : CodexResult) (mode : ValidationMode) :
    (enforceRequiredFields r mode).agentMessages = r.agentMessages ∧
    (enforceRequiredFields r mode).agentMessagesTruncated = r.agentMessagesTruncated ∧
    (enforceRequiredFields r mode).allMessages = r.allMessages := by
  unfold enforceRequiredFields
  dsimp only
  repeat' split
  all_goals exact ⟨rfl, rfl, rfl⟩

theorem finishRun_fields (st : LoopState) (exitSuccess : Bool) (exitCode : Option Int)
    (stderrOutput : String) :
    (finishRun st exitSuccess exitCode stderrOutput).agentMessages
        = st.result.agentMessages ∧
    (finishRun st exitSuccess exitCode stderrOutput).agentMessagesTruncated
        = st.result.agentMessagesTruncated ∧
    (finishRun st exitSuccess exitCode stderrOutput).allMessages
        = st.result.allMessages := by
  unfold finishRun
  dsimp only
  split
  · split <;>
      exact ⟨(enforce_fields _ _).1, (enforce_fields _ _).2.1, (enforce_fields _ _).2.2⟩
  · split <;>
      exact ⟨(enforce_fields _ _).1, (enforce_fields _ _).2.1, (enforce_fields _ _).2.2⟩

theorem stepAllMessages_agentFields (ram : Bool) (lim : Nat) (ser : Json → Nat)
    (st : LoopState) (j : Json) :
    (stepAllMessages ram lim ser st j).result.agentMessages = st.result.agentMessages ∧
    (stepAllMessages ram lim ser st j).result.agentMessagesTruncated
      = st.result.agentMessagesTruncated := by
  unfold stepAllMessages
  repeat' split
  all_goals try exact ⟨rfl, rfl⟩
  all_goals (dsimp only; split <;> exact ⟨rfl, rfl⟩)

theorem stepThreadId_fields (st : LoopState) (j : Json) :
    (stepThreadId st j).result.agentMessages = st.result.agentMessages ∧
    (stepThreadId st j).result.agentMessagesTruncated = st.result.agentMessagesTruncated ∧
    (stepThreadId st j).result.allMessages = st.result.allMessages ∧
    (stepThreadId st j).allMessagesSize = st.allMessagesSize := by
  unfold stepThreadId
  repeat' split
  all_goals exact ⟨rfl, rfl, rfl, rfl⟩

theorem stepFailType_otherFields (st : LoopState) (j : Json) :
    (stepFailType st j).result.agentMessages = st.result.agentMessages ∧
    (stepFailType st j).result.agentMessagesTruncated = st.result.agentMessagesTruncated ∧
    (stepFailType st j).result.allMessages = st.result.allMessages ∧
    (stepFailType st j).allMessagesSize = st.allMessagesSize := by
  unfold stepFailType topMessageFallback
  repeat' split
  all_goals exact ⟨rfl, rfl, rfl, rfl⟩

theorem stepAgentMessage_allFields (st : LoopState) (j : Json) :
    (stepAgentMessage st j).result.allMessages = st.result.allMessages ∧
    (stepAgentMessage st j).allMessagesSize = st.allMessagesSize := by
  unfold stepAgentMessage
  repeat' split
  all_goals try exact ⟨rfl, rfl⟩
  all_goals (dsimp only; repeat' split)
  all_goals exact ⟨rfl, rfl⟩

theorem stepAgentMessage_bound (st : LoopState) (j : Json)
    (h1 : st.result.agentMessagesTruncated = false →
      byteLen st.result.agentMessages ≤ MAX_AGENT_MESSAGES_SIZE + 1)
    (h2 : st.result.agentMessagesTruncated = true →
      byteLen st.result.agentMessages
        ≤ MAX_AGENT_MESSAGES_SIZE + 1 + byteLen AGENT_TRUNC_SENTINEL) :
    ((stepAgentMessage st j).result.agentMessagesTruncated = false →
      byteLen (stepAgentMessage st j).result.agentMessages
        ≤ MAX_AGENT_MESSAGES_SIZE + 1) ∧
    ((stepAgentMessage st j).result.agentMessagesTruncated = true →
      byteLen (stepAgentMessage st j).result.agentMessages
        ≤ MAX_AGENT_MESSAGES_SIZE + 1 + byteLen AGENT_TRUNC_SENTINEL) := by
  unfold stepAgentMessage
  cases hit : j.get "item" with
  | none => simp only [hit]; exact ⟨h1, h2⟩
  | some item =>
    simp only [hit]
    by_cases hobj : item.isObj = true
    · simp only [hobj, if_true]
      cases hty : (item.get "type").bind Json.asStr with
      | none => simp only [hty]; exact ⟨h1, h2⟩
      | some ty =>
        simp only [hty]
        by_cases hagm : ty = "agent_message"
        · subst hagm
          simp only [if_pos rfl]
          cases htx : (item.get "text").bind Json.asStr with
          | none => simp only [htx]; exact ⟨h1, h2⟩
          | some text =>
            simp only [htx]
            by_cases hover :
                byteLen st.result.agentMessages + byteLen text > MAX_AGENT_MESSAGES_SIZE
            · rw [if_pos hover]
              by_cases htr : st.result.agentMessagesTruncated = true
              · rw [if_neg (not_not_intro htr)]
                exact ⟨h1, h2⟩
              · rw [if_pos htr]
                simp only [if_true]
                have hfalse : st.result.agentMessagesTruncated = false := by
                  cases hq : st.result.agentMessagesTruncated
                  · rfl
                  · exact absurd hq htr
                constructor
                · intro hcontr
                  simp at hcontr
                · intro _
                  rw [byteLen_append]
                  have := h1 hfalse
                  omega
            · rw [if_neg hover]
              by_cases htr : st.result.agentMessagesTruncated = true
              · rw [if_neg (not_not_intro htr)]
                exact ⟨h1, h2⟩
              · rw [if_pos htr]
                simp only [if_true]
                constructor
                · intro _
                  rw [byteLen_append]
                  split
                  · rw [byteLen_append]
                    have hnl : byteLen "\n" = 1 := by decide
                    omega
                  · omega
                · intro hcontr
                  exact absurd hcontr htr
        · simp only [if_neg hagm]
          exact ⟨h1, h2⟩
    · simp only [hobj, Bool.false_eq_true, if_false]
      exact ⟨h1, h2⟩

end Codex

namespace Codex

theorem stepAllMessages_allInv (ram : Bool) (lim : Nat) (ser : Json → Nat)
    (st : LoopState) (j : Json)
    (hS : st.allMessagesSize = (st.result.allMessages.map ser).sum)
    (hC : st.allMessagesSize ≤ MAX_ALL_MESSAGES_SIZE)
    (hL : st.result.allMessages.length ≤ lim) :
    (stepAllMessages ram lim ser st j).allMessagesSize
        = ((stepAllMessages ram lim ser st j).result.allMessages.map ser).sum ∧
    (stepAllMessages ram lim ser st j).allMessagesSize ≤ MAX_ALL_MESSAGES_SIZE ∧
    (stepAllMessages ram lim ser st j).result.allMessages.length ≤ lim := by
  unfold stepAllMessages
  by_cases hr : ram = true
  · rw [if_pos hr]
    by_cases hlen : st.result.allMessages.length < lim
    · rw [if_pos hlen]
      by_cases hobj : j.isObj = true
      · rw [if_pos hobj]
        dsimp only
        by_cases hfits : st.allMessagesSize + ser j ≤ MAX_ALL_MESSAGES_SIZE
        · rw [if_pos hfits]
          refine ⟨?_, ?_, ?_⟩
          · dsimp only
            rw [hS]
            simp
          · exact hfits
          · dsimp only
            simp
            omega
        · rw [if_neg hfits]
          split
          · exact ⟨hS, hC, hL⟩
          · exact ⟨hS, hC, hL⟩
      · rw [if_neg (by simpa using hobj)]
        exact ⟨hS, hC, hL⟩
    · rw [if_neg hlen]
      split
      · exact ⟨hS, hC, hL⟩
      · exact ⟨hS, hC, hL⟩
  · rw [if_neg hr]
    exact ⟨hS, hC, hL⟩

theorem processParsedLine_bounds (ram : Bool) (lim : Nat) (ser : Json → Nat)
    (st : LoopState) (j : Json)
    (hA1 : st.result.agentMessagesTruncated = false →
      byteLen st.result.agentMessages ≤ MAX_AGENT_MESSAGES_SIZE + 1)
    (hA2 : st.result.agentMessagesTruncated = true →
      byteLen st.result.agentMessages
        ≤ MAX_AGENT_MESSAGES_SIZE + 1 + byteLen AGENT_TRUNC_SENTINEL)
    (hS : st.allMessagesSize = (st.result.allMessages.map ser).sum)
    (hC : st.allMessagesSize ≤ MAX_ALL_MESSAGES_SIZE)
    (hL : st.result.allMessages.length ≤ lim) :
    ((processParsedLine ram lim ser st j).result.agentMessagesTruncated = false →
      byteLen (processParsedLine ram lim ser st j).result.agentMessages
        ≤ MAX_AGENT_MESSAGES_SIZE + 1) ∧
    ((processParsedLine ram lim ser st j).result.agentMessagesTruncated = true →
      byteLen (processParsedLine ram lim ser st j).result.agentMessages
        ≤ MAX_AGENT_MESSAGES_SIZE + 1 + byteLen AGENT_TRUNC_SENTINEL) ∧
    (processParsedLine ram lim ser st j).allMessagesSize
        = ((processParsedLine ram lim ser st j).result.allMessages.map ser).sum ∧
    (processParsedLine ram lim ser st j).allMessagesSize ≤ MAX_ALL_MESSAGES_SIZE ∧
    (processParsedLine ram lim ser st j).result.allMessages.length ≤ lim := by
  unfold processParsedLine
  have hag1 := stepAllMessages_agentFields ram lim ser st j
  have hall1 := stepAllMessages_allInv ram lim ser st j hS hC hL
  have hA1a : (stepAllMessages ram lim ser st j).result.agentMessagesTruncated = false →
      byteLen (stepAllMessages ram lim ser st j).result.agentMessages
        ≤ MAX_AGENT_MESSAGES_SIZE + 1 := by
    intro h
    rw [hag1.2] at h
    rw [hag1.1]
    exact hA1 h
  have hA2a : (stepAllMessages ram lim ser st j).result.agentMessagesTruncated = true →
      byteLen (stepAllMessages ram lim ser st j).result.agentMessages
        ≤ MAX_AGENT_MESSAGES_SIZE + 1 + byteLen AGENT_TRUNC_SENTINEL := by
    intro h
    rw [hag1.2] at h
    rw [hag1.1]
    exact hA2 h
  have hth := stepThreadId_fields (stepAllMessages ram lim ser st j) j
  have hA1b : (stepThreadId (stepAllMessages ram lim ser st j) j).result.agentMessagesTruncated
        = false →
      byteLen (stepThreadId (stepAllMessages ram lim ser st j) j).result.agentMessages
        ≤ MAX_AGENT_MESSAGES_SIZE + 1 := by
    intro h
    rw [hth.2.1] at h
    rw [hth.1]
    exact hA1a h
  have hA2b : (stepThreadId (stepAllMessages ram lim ser st j) j).result.agentMessagesTruncated
        = true →
      byteLen (stepThreadId (stepAllMessages ram lim ser st j) j).result.agentMessages
        ≤ MAX_AGENT_MESSAGES_SIZE + 1 + byteLen AGENT_TRUNC_SENTINEL := by
    intro h
    rw [hth.2.1] at h
    rw [hth.1]
    exact hA2a h
  have hagb := stepAgentMessage_bound (stepThreadId (stepAllMessages ram lim ser st j) j) j
    hA1b hA2b
  have hamall := stepAgentMessage_allFields
    (stepThreadId (stepAllMessages ram lim ser st j) j) j
  have hft := stepFailType_otherFields
    (stepAgentMessage (stepThreadId (stepAllMessages ram lim ser st j) j) j) j
  refine ⟨?_, ?_, ?_, ?_, ?_⟩
  · intro h
    rw [hft.2.1] at h
    rw [hft.1]
    exact hagb.1 h
  · intro h
    rw [hft.2.1] at h
    rw [hft.1]
    exact hagb.2 h
  · rw [hft.2.2.2, hft.2.2.1, hamall.2, hamall.1, hth.2.2.2, hth.2.2.1]
    exact hall1.1
  · rw [hft.2.2.2, hamall.2, hth.2.2.2]
    exact hall1.2.1
  · rw [hft.2.2.1, hamall.1, hth.2.2.1]
    exact hall1.2.2

theorem processStdout_bounds (ram : Bool) (lim : Nat) (ser : Json → Nat)
    (events : List ReadEvent) :
    ∀ st : LoopState,
    (st.result.agentMessagesTruncated = false →
      byteLen st.result.agentMessages ≤ MAX_AGENT_MESSAGES_SIZE + 1) →
    (st.result.agentMessagesTruncated = true →
      byteLen st.result.agentMessages
        ≤ MAX_AGENT_MESSAGES_SIZE + 1 + byteLen AGENT_TRUNC_SENTINEL) →
    st.allMessagesSize = (st.result.allMessages.map ser).sum →
    st.allMessagesSize ≤ MAX_ALL_MESSAGES_SIZE →
    st.result.allMessages.length ≤ lim →
    (((processStdout ram lim ser events st).result.agentMessagesTruncated = false →
      byteLen (processStdout ram lim ser events st).result.agentMessages
        ≤ MAX_AGENT_MESSAGES_SIZE + 1) ∧
    ((processStdout ram lim ser events st).result.agentMessagesTruncated = true →
      byteLen (processStdout ram lim ser events st).result.agentMessages
        ≤ MAX_AGENT_MESSAGES_SIZE + 1 + byteLen AGENT_TRUNC_SENTINEL) ∧
    ((processStdout ram lim ser events st).result.allMessages.map ser).sum
        ≤ MAX_ALL_MESSAGES_SIZE ∧
    (processStdout ram lim ser events st).result.allMessages.length ≤ lim) := by
  induction events with
  | nil =>
    intro st hA1 hA2 hS hC hL
    exact ⟨hA1, hA2, hS ▸ hC, hL⟩
  | cons ev rest ih =>
    intro st hA1 hA2 hS hC hL
    cases ev with
    | ioError m =>
      simp only [processStdout]
      exact ⟨hA1, hA2, hS ▸ hC, hL⟩
    | truncatedLine =>
      simp only [processStdout]
      split
      · exact ih _ hA1 hA2 hS hC hL
      · exact ih _ hA1 hA2 hS hC hL
    | emptyLine =>
      simp only [processStdout]
      exact ih _ hA1 hA2 hS hC hL
    | unparsable content m =>
      by_cases hp : st.parseErrorSeen = true
      · simp only [processStdout, hp, if_true]
        exact ih _ hA1 hA2 hS hC hL
      · have hp' : st.parseErrorSeen = false := by
          cases hq : st.parseErrorSeen
          · rfl
          · exact absurd hq hp
        simp only [processStdout, hp', Bool.false_eq_true, if_false]
        split
        · exact ih _ hA1 hA2 hS hC hL
        · exact ih _ hA1 hA2 hS hC hL
    | parsed jj =>
      by_cases hp : st.parseErrorSeen = true
      · simp only [processStdout, hp, if_true]
        exact ih _ hA1 hA2 hS hC hL
      · have hp' : st.parseErrorSeen = false := by
          cases hq : st.parseErrorSeen
          · rfl
          · exact absurd hq hp
        simp only [processStdout, hp', Bool.false_eq_true, if_false]
        obtain ⟨a1, a2, s, c, l⟩ := processParsedLine_bounds ram lim ser st jj hA1 hA2 hS hC hL
        exact ih _ a1 a2 s c l

theorem stderrStep_bound (acc : String × Bool) (line : String)
    (h1 : acc.2 = false → byteLen acc.1 ≤ MAX_STDERR_SIZE)
    (h2 : acc.2 = true →
      byteLen acc.1 ≤ MAX_STDERR_SIZE + 1 + byteLen STDERR_TRUNC_MARKER) :
    ((stderrStep acc line).2 = false → byteLen (stderrStep acc line).1 ≤ MAX_STDERR_SIZE) ∧
    ((stderrStep acc line).2 = true →
      byteLen (stderrStep acc line).1
        ≤ MAX_STDERR_SIZE + 1 + byteLen STDERR_TRUNC_MARKER) := by
  unfold stderrStep
  dsimp only
  by_cases hover : byteLen acc.1 + byteLen line + 1 > MAX_STDERR_SIZE
  · rw [if_pos hover]
    by_cases htr : acc.2 = true
    · rw [if_neg (not_not_intro htr)]
      exact ⟨h1, h2⟩
    · rw [if_pos htr]
      have hfalse : acc.2 = false := by
        cases hq : acc.2
        · rfl
        · exact absurd hq htr
      constructor
      · intro hcontr
        simp at hcontr
      · intro _
        rw [byteLen_append]
        have hb := h1 hfalse
        split
        · rw [byteLen_append]
          have hnl : byteLen "\n" = 1 := by decide
          omega
        · omega
  · rw [if_neg hover]
    by_cases htr : acc.2 = true
    · rw [if_neg (not_not_intro htr)]
      exact ⟨h1, h2⟩
    · rw [if_pos htr]
      have hfalse : acc.2 = false := by
        cases hq : acc.2
        · rfl
        · exact absurd hq htr
      constructor
      · intro _
        rw [byteLen_append]
        have hb := h1 hfalse
        split
        · rw [byteLen_append]
          have hnl : byteLen "\n" = 1 := by decide
          omega
        · omega
      · intro hcontr
        exact absurd hcontr htr

theorem stderrDrain_bound (lines : List String) :
    byteLen (stderrDrain lines)
      ≤ MAX_STDERR_SIZE + 1 + byteLen STDERR_TRUNC_MARKER := by
  have hgen : ∀ (ls : List String) (acc : String × Bool),
      (acc.2 = false → byteLen acc.1 ≤ MAX_STDERR_SIZE) →
      (acc.2 = true →
        byteLen acc.1 ≤ MAX_STDERR_SIZE + 1 + byteLen STDERR_TRUNC_MARKER) →
      byteLen (ls.foldl stderrStep acc).1
        ≤ MAX_STDERR_SIZE + 1 + byteLen STDERR_TRUNC_MARKER := by
    intro ls
    induction ls with
    | nil =>
      intro acc h1 h2
      cases hq : acc.2 with
      | false => have := h1 hq; simp only [List.foldl]; omega
      | true => have := h2 hq; simpa using this
    | cons l rest ih =>
      intro acc h1 h2
      obtain ⟨k1, k2⟩ := stderrStep_bound acc l h1 h2
      exact ih (stderrStep acc l) k1 k2
  apply hgen
  · intro _
    decide
  · intro h
    simp at h

/-- C4 (amended: the accumulated `agent_messages` can exceed 10 MiB plus
the sentinel by one separator byte, so the bound is
`10 MiB + 1 + |sentinel|`; captured stderr is similarly bounded by
`1 MiB + 1 + |marker|`): after any codex run, `agent_messages` is at most
`10 MiB + 1 + |sentinel|` bytes, `all_messages` holds at most
`min(return_all_messages_limit, 50000)` items (default 10000) of total
serialized size at most 50 MiB, and captured stderr is at most
`1 MiB + 1 + |marker|` bytes. -/
theorem runModelBounds (ram : Bool) (lim : Option Nat) (ser : Json → Nat)
    (events : List ReadEvent) (exitSuccess : Bool) (exitCode : Option Int)
    (stderrOutput : String) (stderrLines : List String) :
    byteLen (runModel ram lim ser events exitSuccess exitCode stderrOutput).agentMessages
      ≤ MAX_AGENT_MESSAGES_SIZE + 1 + byteLen AGENT_TRUNC_SENTINEL ∧
    (runModel ram lim ser events exitSuccess exitCode stderrOutput).allMessages.length
      ≤ min (lim.getD DEFAULT_MESSAGE_LIMIT) MAX_MESSAGE_LIMIT ∧
    ((runModel ram lim ser events exitSuccess exitCode stderrOutput).allMessages.map ser).sum
      ≤ MAX_ALL_MESSAGES_SIZE ∧
    byteLen (stderrDrain stderrLines)
      ≤ MAX_STDERR_SIZE + 1 + byteLen STDERR_TRUNC_MARKER := by
  have hloop := processStdout_bounds ram (messageLimitOf lim) ser events
    { result := initialResult, parseErrorSeen := false, allMessagesSize := 0 }
    (by intro _; decide)
    (by intro h; simp [initialResult] at h)
    (by rfl)
    (by have : (0 : Nat) ≤ MAX_ALL_MESSAGES_SIZE := by omega
        exact this)
    (Nat.zero_le _)
  obtain ⟨a1, a2, c, l⟩ := hloop
  have hff := finishRun_fields
    (processStdout ram (messageLimitOf lim) ser events
      { result := initialResult, parseErrorSeen := false, allMessagesSize := 0 })
    exitSuccess exitCode stderrOutput
  refine ⟨?_, ?_, ?_, stderrDrain_bound stderrLines⟩
  · show byteLen (finishRun _ exitSuccess exitCode stderrOutput).agentMessages ≤ _
    rw [hff.1]
    cases hq : (processStdout ram (messageLimitOf lim) ser events
        { result := initialResult, parseErrorSeen := false,
          allMessagesSize := 0 }).result.agentMessagesTruncated with
    | false => have := a1 hq; omega
    | true => exact a2 hq
  · show (finishRun _ exitSuccess exitCode stderrOutput).allMessages.length ≤ _
    rw [hff.2.2]
    exact l
  · show ((finishRun _ exitSuccess exitCode stderrOutput).allMessages.map ser).sum ≤ _
    rw [hff.2.2]
    exact c

end Codex

namespace Codex

/-- Evaluation of the `agent_message` block on a line of the canonical
`agentMsgJson` shape: only the size/truncation logic remains. -/
theorem stepAgentMessage_agentMsgJson (st : LoopState) (text : String) :
    stepAgentMessage st (agentMsgJson text) =
      (if byteLen st.result.agentMessages + byteLen text > MAX_AGENT_MESSAGES_SIZE then
        if ¬ st.result.agentMessagesTruncated then
          { st with result := { st.result with
              agentMessages := st.result.agentMessages ++ AGENT_TRUNC_SENTINEL,
              agentMessagesTruncated := true } }
        else st
      else if ¬ st.result.agentMessagesTruncated then
        { st with result := { st.result with
            agentMessages :=
              (if st.result.agentMessages ≠ "" ∧ text ≠ "" then
                st.result.agentMessages ++ "\n"
              else st.result.agentMessages) ++ text } }
      else st) := rfl

/-- On an `agentMsgJson` line the other three loop blocks are inert. -/
theorem processParsedLine_agentMsg (lim : Nat) (ser : Json → Nat)
    (st : LoopState) (text : String) :
    processParsedLine false lim ser st (agentMsgJson text)
      = stepAgentMessage st (agentMsgJson text) := rfl

/-- Appending branch of the agent-message accumulator, phrased over an
explicit copy `a` of the accumulated string. -/
theorem stepAgentMessage_append (st : LoopState) (text a : String)
    (ha : st.result.agentMessages = a)
    (hle : byteLen a + byteLen text ≤ MAX_AGENT_MESSAGES_SIZE)
    (htr : st.result.agentMessagesTruncated = false)
    (hne : a ≠ "") (htne : text ≠ "") :
    stepAgentMessage st (agentMsgJson text) =
      { st with result := { st.result with
          agentMessages := (a ++ "\n") ++ text } } := by
  have h2 : ¬ st.result.agentMessagesTruncated = true := by
    rw [htr]
    simp
  rw [stepAgentMessage_agentMsgJson, ha, if_neg (by omega), if_pos h2,
    if_pos ⟨hne, htne⟩]

/-- Sentinel branch of the agent-message accumulator, phrased over an
explicit copy `a` of the accumulated string. -/
theorem stepAgentMessage_sentinel (st : LoopState) (text a : String)
    (ha : st.result.agentMessages = a)
    (hgt : byteLen a + byteLen text > MAX_AGENT_MESSAGES_SIZE)
    (htr : st.result.agentMessagesTruncated = false) :
    stepAgentMessage st (agentMsgJson text) =
      { st with result := { st.result with
          agentMessages := a ++ AGENT_TRUNC_SENTINEL,
          agentMessagesTruncated := true } } := by
  have h2 : ¬ st.result.agentMessagesTruncated = true := by
    rw [htr]
    simp
  rw [stepAgentMessage_agentMsgJson, ha, if_pos hgt, if_pos h2]

/-- One step of the stdout fold on a parsed line, before any parse error. -/
theorem processStdout_parsed_step (ram : Bool) (lim : Nat) (ser : Json → Nat)
    (j : Json) (rest : List ReadEvent) (st : LoopState)
    (h : st.parseErrorSeen = false) :
    processStdout ram lim ser (ReadEvent.parsed j :: rest) st
      = processStdout ram lim ser rest (processParsedLine ram lim ser st j) := by
  simp only [processStdout, h, Bool.false_eq_true, if_false]

/-- C4 counterexample: with agent messages "a", then one of
`MAX_AGENT_MESSAGES_SIZE - 1` bytes, then "c", the separator newline pushes
the accumulated string to exactly `MAX_AGENT_MESSAGES_SIZE + 1` bytes before
the sentinel is appended, so the final `agent_messages` exceeds the claimed
bound of 10 MiB plus the sentinel length by one byte. -/
theorem codexAgentMessagesOvershoot :
    MAX_AGENT_MESSAGES_SIZE + byteLen AGENT_TRUNC_SENTINEL
      < byteLen (runModel false none (fun _ => 0)
          [ReadEvent.parsed (agentMsgJson "a"),
           ReadEvent.parsed (agentMsgJson bigAgentText),
           ReadEvent.parsed (agentMsgJson "c")] true none "").agentMessages := by
  have hM : MAX_AGENT_MESSAGES_SIZE = 10485760 := rfl
  have hbig : byteLen bigAgentText = MAX_AGENT_MESSAGES_SIZE - 1 := by
    unfold bigAgentText
    rw [byteLen_mk_replicate]
    have hb : Char.utf8Size 'b' = 1 := by decide
    rw [hb, Nat.mul_one]
  have hbigne : bigAgentText ≠ "" := by
    intro h
    have h0 : byteLen bigAgentText = 0 := (byteLen_eq_zero_iff bigAgentText).mpr h
    rw [hbig, hM] at h0
    omega
  have ha1 : byteLen "a" = 1 := rfl
  have hs1 : processParsedLine false (messageLimitOf none) (fun _ => 0)
      { result := initialResult, parseErrorSeen := false, allMessagesSize := 0 }
      (agentMsgJson "a")
      = { result :=
            { success := true, sessionId := "", agentMessages := "a",
              agentMessagesTruncated := false, allMessages := [],
              allMessagesTruncated := false, error := none, warnings := none },
          parseErrorSeen := false, allMessagesSize := 0 } := rfl
  have hle2 : byteLen "a" + byteLen bigAgentText ≤ MAX_AGENT_MESSAGES_SIZE := by
    rw [ha1, hbig, hM]
  have hs2 : processParsedLine false (messageLimitOf none) (fun _ => 0)
      { result :=
          { success := true, sessionId := "", agentMessages := "a",
            agentMessagesTruncated := false, allMessages := [],
            allMessagesTruncated := false, error := none, warnings := none },
        parseErrorSeen := false, allMessagesSize := 0 }
      (agentMsgJson bigAgentText)
      = { result :=
            { success := true, sessionId := "",
              agentMessages := ("a" ++ "\n") ++ bigAgentText,
              agentMessagesTruncated := false, allMessages := [],
              allMessagesTruncated := false, error := none, warnings := none },
          parseErrorSeen := false, allMessagesSize := 0 } := by
    rw [processParsedLine_agentMsg,
      stepAgentMessage_append _ _ "a" rfl hle2 rfl (by decide) hbigne]
  have h2len : byteLen (("a" ++ "\n") ++ bigAgentText)
      = MAX_AGENT_MESSAGES_SIZE + 1 := by
    rw [byteLen_append, hbig, hM]
    have hanl : byteLen ("a" ++ "\n") = 2 := rfl
    rw [hanl]
  have hgt3 : byteLen (("a" ++ "\n") ++ bigAgentText) + byteLen "c"
      > MAX_AGENT_MESSAGES_SIZE := by
    rw [h2len]
    omega
  have hs3 : processParsedLine false (messageLimitOf none) (fun _ => 0)
      { result :=
          { success := true, sessionId := "",
            agentMessages := ("a" ++ "\n") ++ bigAgentText,
            agentMessagesTruncated := false, allMessages := [],
            allMessagesTruncated := false, error := none, warnings := none },
        parseErrorSeen := false, allMessagesSize := 0 }
      (agentMsgJson "c")
      = { result :=
            { success := true, sessionId := "",
              agentMessages := (("a" ++ "\n") ++ bigAgentText) ++ AGENT_TRUNC_SENTINEL,
              agentMessagesTruncated := true, allMessages := [],
              allMessagesTruncated := false, error := none, warnings := none },
          parseErrorSeen := false, allMessagesSize := 0 } := by
    rw [processParsedLine_agentMsg,
      stepAgentMessage_sentinel _ _ (("a" ++ "\n") ++ bigAgentText) rfl hgt3 rfl]
  have hfold : processStdout false (messageLimitOf none) (fun _ => 0)
      [ReadEvent.parsed (agentMsgJson "a"),
       ReadEvent.parsed (agentMsgJson bigAgentText),
       ReadEvent.parsed (agentMsgJson "c")]
      { result := initialResult, parseErrorSeen := false, allMessagesSize := 0 }
      = { result :=
            { success := true, sessionId := "",
              agentMessages := (("a" ++ "\n") ++ bigAgentText) ++ AGENT_TRUNC_SENTINEL,
              agentMessagesTruncated := true, allMessages := [],
              allMessagesTruncated := false, error := none, warnings := none },
          parseErrorSeen := false, allMessagesSize := 0 } := by
    rw [processStdout_parsed_step _ _ _ _ _ _ rfl, hs1,
      processStdout_parsed_step _ _ _ _ _ _ rfl, hs2,
      processStdout_parsed_step _ _ _ _ _ _ rfl, hs3]
    rfl
  have hagent : (runModel false none (fun _ => 0)
      [ReadEvent.parsed (agentMsgJson "a"),
       ReadEvent.parsed (agentMsgJson bigAgentText),
       ReadEvent.parsed (agentMsgJson "c")] true none "").agentMessages
      = (("a" ++ "\n") ++ bigAgentText) ++ AGENT_TRUNC_SENTINEL := by
    unfold runModel
    rw [hfold]
    exact (finishRun_fields _ true none "").1
  rw [hagent, byteLen_append, h2len, hM]
  omega

end Codex

namespace Transport

theorem foldr_digits_ofDigits (ds : List Nat) :
    ds.foldr (fun d acc => acc * 10 + d) 0 = Nat.ofDigits 10 ds := by
  induction ds with
  | nil => simp [Nat.ofDigits]
  | cons d tl ih =>
    simp only [List.foldr_cons, ih, Nat.ofDigits_cons]
    ring

theorem natDecimal_digit (n : Nat) :
    ∀ b ∈ natDecimal n, 48 ≤ b.toNat ∧ b.toNat ≤ 57 := by
  unfold natDecimal
  split
  · intro b hb
    simp only [List.mem_singleton] at hb
    subst hb
    decide
  · intro b hb
    simp only [List.mem_map, List.mem_reverse] at hb
    obtain ⟨d, hd, rfl⟩ := hb
    have hlt : d < 10 := Nat.digits_lt_base (by norm_num) hd
    have : (UInt8.ofNat (48 + d)).toNat = (48 + d) % 256 := rfl
    rw [this, Nat.mod_eq_of_lt (by omega)]
    omega

theorem natDecimal_ne_nil (n : Nat) : natDecimal n ≠ [] := by
  unfold natDecimal
  split
  · simp
  · rename_i hn
    simp only [ne_eq, List.map_eq_nil_iff, List.reverse_eq_nil_iff]
    exact Nat.digits_ne_nil_iff_ne_zero.mpr hn

theorem digit_isDigitByte (b : UInt8) (h : 48 ≤ b.toNat ∧ b.toNat ≤ 57) :
    isDigitByte b = true := by
  unfold isDigitByte
  rw [decide_eq_true_iff]
  constructor
  · show (48 : UInt8).toNat ≤ b.toNat
    have h48 : (48 : UInt8).toNat = 48 := rfl
    omega
  · show b.toNat ≤ (57 : UInt8).toNat
    have h57 : (57 : UInt8).toNat = 57 := rfl
    omega

theorem digit_not_ws (b : UInt8) (h : 48 ≤ b.toNat ∧ b.toNat ≤ 57) :
    isTrimWsByte b = false := by
  unfold isTrimWsByte
  have h32 : ¬ b = 32 := fun e => by rw [e] at h; exact absurd h (by decide)
  have h9 : ¬ b = 9 := fun e => by rw [e] at h; exact absurd h (by decide)
  have h10 : ¬ b = 10 := fun e => by rw [e] at h; exact absurd h (by decide)
  have h11 : ¬ b = 11 := fun e => by rw [e] at h; exact absurd h (by decide)
  have h12 : ¬ b = 12 := fun e => by rw [e] at h; exact absurd h (by decide)
  have h13 : ¬ b = 13 := fun e => by rw [e] at h; exact absurd h (by decide)
  simp [h32, h9, h10, h11, h12, h13]

theorem digit_ne_13 (b : UInt8) (h : 48 ≤ b.toNat ∧ b.toNat ≤ 57) : b ≠ 13 :=
  fun e => by rw [e] at h; exact absurd h (by decide)

theorem digit_ne_10 (b : UInt8) (h : 48 ≤ b.toNat ∧ b.toNat ≤ 57) : b ≠ 10 :=
  fun e => by rw [e] at h; exact absurd h (by decide)

theorem digit_ne_43 (b : UInt8) (h : 48 ≤ b.toNat ∧ b.toNat ≤ 57) : b ≠ 43 :=
  fun e => by rw [e] at h; exact absurd h (by decide)

theorem digit_le_127 (b : UInt8) (h : 48 ≤ b.toNat ∧ b.toNat ≤ 57) : b ≤ 127 := by
  show b.toNat ≤ (127 : UInt8).toNat
  have h127 : (127 : UInt8).toNat = 127 := rfl
  omega

theorem parseUsizeBytes_natDecimal (n : Nat) :
    parseUsizeBytes (natDecimal n) = some n := by
  by_cases hn : n = 0
  · subst hn
    decide
  · have hd := natDecimal_digit n
    have hne := natDecimal_ne_nil n
    unfold parseUsizeBytes
    have hshape : natDecimal n
        = ((Nat.digits 10 n).reverse).map (fun d => UInt8.ofNat (48 + d)) := by
      unfold natDecimal
      rw [if_neg hn]
    cases hl : natDecimal n with
    | nil => exact absurd hl hne
    | cons b rest =>
      have hb : 48 ≤ b.toNat ∧ b.toNat ≤ 57 := hd b (by rw [hl]; exact List.mem_cons_self b rest)
      dsimp only
      rw [if_neg (digit_ne_43 b hb)]
      have hempty : (b :: rest).isEmpty = false := rfl
      rw [hempty]
      simp only [Bool.false_eq_true, if_false]
      have hall : (b :: rest).all isDigitByte = true := by
        rw [List.all_eq_true]
        intro x hx
        exact digit_isDigitByte x (hd x (by rw [hl]; exact hx))
      rw [hall]
      simp only [if_true]
      congr 1
      rw [← hl, hshape, List.foldl_map, List.foldl_reverse]
      have hfold : ∀ (ds : List Nat), (∀ d ∈ ds, d < 10) →
          ds.foldr (fun y x => x * 10 + ((UInt8.ofNat (48 + y)).toNat - 48)) 0
            = ds.foldr (fun d acc => acc * 10 + d) 0 := by
        intro ds hds
        induction ds with
        | nil => rfl
        | cons d tl ih =>
          simp only [List.foldr_cons]
          rw [ih (fun x hx => hds x (List.mem_cons_of_mem d hx))]
          have : (UInt8.ofNat (48 + d)).toNat = (48 + d) % 256 := rfl
          rw [this, Nat.mod_eq_of_lt (by have := hds d (List.mem_cons_self d tl); omega)]
          omega
      rw [hfold (Nat.digits 10 n) (fun d hd2 => Nat.digits_lt_base (by norm_num) hd2),
        foldr_digits_ofDigits, Nat.ofDigits_digits]

end Transport

namespace Transport

theorem findSep_cons_ne (b : UInt8) (rest : List UInt8) (hb : b ≠ 13) :
    findSep (b :: rest) = (findSep rest).map (fun i => i + 1) := by
  rw [findSep.eq_def]
  split
  · rename_i heq
    injection heq with h1 _
    exact absurd h1 hb
  · rename_i heq
    injection heq with h1 h2
    subst h1
    subst h2
    rfl
  · rename_i heq
    exact absurd heq (by simp)

theorem findSep_header (h p : List UInt8) (hno : ∀ b ∈ h, b ≠ 13) :
    findSep (h ++ 13 :: 10 :: 13 :: 10 :: p) = some h.length := by
  induction h with
  | nil => rfl
  | cons b t ih =>
    rw [List.cons_append,
      findSep_cons_ne b _ (hno b (List.mem_cons_self b t)),
      ih (fun x hx => hno x (List.mem_cons_of_mem b hx))]
    rfl

theorem utf8Valid_of_ascii (l : List UInt8) (h : ∀ b ∈ l, b ≤ 127) :
    utf8ValidBytes l = true := by
  unfold utf8ValidBytes
  induction l with
  | nil => rfl
  | cons b t ih =>
    rw [List.length_cons]
    simp only [utf8ValidAux]
    rw [if_pos (h b (List.mem_cons_self b t))]
    exact ih (fun x hx => h x (List.mem_cons_of_mem b hx))

theorem splitNl_no_nl (l : List UInt8) (h : ∀ b ∈ l, b ≠ 10) :
    splitNl l = [l] := by
  induction l with
  | nil => rfl
  | cons b t ih =>
    rw [splitNl.eq_def]
    dsimp only
    rw [if_neg (h b (List.mem_cons_self b t)),
      ih (fun x hx => h x (List.mem_cons_of_mem b hx))]

theorem linesBytes_single (l : List UInt8) (hne : l ≠ [])
    (hnl : ∀ b ∈ l, b ≠ 10) (hcr : l.getLast? ≠ some 13) :
    linesBytes l = [l] := by
  unfold linesBytes
  rw [if_neg (by simpa [List.isEmpty_iff] using hne)]
  dsimp only
  rw [splitNl_no_nl l hnl]
  have hlast : l.getLast? ≠ some 10 := by
    intro hx
    exact hnl 10 (List.mem_of_mem_getLast? hx) rfl
  rw [if_neg hlast]
  have hstrip : stripTrailingCr l = l := by
    unfold stripTrailingCr
    cases hg : l.getLast? with
    | none => rfl
    | some b =>
      have hb13 : ¬ b = 13 := fun hx => hcr (hx ▸ hg)
      dsimp only
      rw [if_neg hb13]
  rw [List.map_singleton, hstrip]

theorem dropWhile_ws_eq_self (l : List UInt8)
    (h : ∀ b, l.head? = some b → isTrimWsByte b = false) :
    l.dropWhile isTrimWsByte = l := by
  cases l with
  | nil => rfl
  | cons a t =>
    rw [List.dropWhile_cons, h a rfl]
    simp

theorem trim_eq_self (l : List UInt8)
    (hh : ∀ b, l.head? = some b → isTrimWsByte b = false)
    (hl : ∀ b, l.getLast? = some b → isTrimWsByte b = false) :
    asciiTrimBytes l = l := by
  unfold asciiTrimBytes
  rw [dropWhile_ws_eq_self l hh]
  rw [dropWhile_ws_eq_self l.reverse (fun b hb => hl b (by rwa [List.head?_reverse] at hb))]
  exact List.reverse_reverse l

end Transport

namespace Transport

theorem findIdx_nl_aux (p : List UInt8) (h : (10 : UInt8) ∉ p) :
    ∀ i, (p ++ [10]).findIdx? (fun b => b = 10) i = some (p.length + i) := by
  induction p with
  | nil =>
    intro i
    rw [List.nil_append, List.findIdx?_cons]
    simp
  | cons a t ih =>
    intro i
    have ha : ¬ (a = 10) := fun e => h (e ▸ List.mem_cons_self a t)
    rw [List.cons_append, List.findIdx?_cons]
    simp only [decide_eq_true_eq, ha, if_false]
    rw [ih (fun hx => h (List.mem_cons_of_mem a hx)) (i + 1)]
    congr 1
    rw [List.length_cons]
    omega

theorem wcr_eq_self (p : List UInt8) (hcr : p.getLast? ≠ some 13) :
    withoutCarriageReturn p = p := by
  unfold withoutCarriageReturn
  cases hg : p.getLast? with
  | none => rfl
  | some b =>
    have hb : ¬ b = 13 := fun hx => hcr (hx ▸ hg)
    dsimp only
    rw [if_neg hb]

theorem isEmpty_false_of_ne_nil {α : Type} (l : List α) (h : l ≠ []) :
    l.isEmpty = false := by
  cases hq : l.isEmpty
  · rfl
  · exact absurd (List.isEmpty_iff.mp hq) h

theorem decodeJsonl_roundTrip {J : Type} (par : List UInt8 → Option J) (v : J)
    (p : List UInt8) (maxLength : Nat)
    (hpar : par p = some v) (hne : p ≠ []) (hnl : (10 : UInt8) ∉ p)
    (hcr : p.getLast? ≠ some 13) (hlen : p.length ≤ maxLength) :
    decodeJsonl par { nextIndex := 0, maxLength := maxLength, isDiscarding := false }
        (encodeBytes FramingFormat.JsonLines p)
      = (Except.ok (some v),
          { nextIndex := 0, maxLength := maxLength, isDiscarding := false }, []) := by
  unfold encodeBytes decodeJsonl
  have hlen2 : (p ++ [10]).length = p.length + 1 := by simp
  rw [hlen2]
  simp only [decodeJsonlAux]
  have hmin : min (maxLength + 1) (p ++ [10]).length = p.length + 1 := by
    rw [hlen2]
    exact Nat.min_eq_right (by omega)
  rw [hmin]
  have htake : (p ++ [10]).take (p.length + 1) = p ++ [10] := by
    apply List.take_of_length_le
    rw [hlen2]
  rw [htake]
  rw [List.drop_zero]
  rw [findIdx_nl_aux p hnl 0]
  dsimp only
  have htake2 : (p ++ [10]).take (p.length + 0 + 1) = p ++ [10] := by
    apply List.take_of_length_le
    rw [hlen2]
  rw [htake2]
  have hdrop : (p ++ [10]).drop (p.length + 0 + 1) = [] := by
    rw [show p.length + 0 + 1 = (p ++ [10]).length by rw [hlen2]]
    exact List.drop_length _
  rw [hdrop]
  rw [List.dropLast_concat]
  rw [wcr_eq_self p hcr]
  rw [isEmpty_false_of_ne_nil p hne]
  simp only [Bool.false_eq_true, if_false]
  rw [hpar]

end Transport

namespace Transport

/-- The header prefix bytes `Content-Length: ` (with trailing space). -/
theorem cl32_eq : asciiBytes "Content-Length: " = CONTENT_LENGTH_BYTES ++ [32] := by decide

theorem cl32_facts : ∀ b ∈ asciiBytes "Content-Length: ",
    b ≠ 13 ∧ b ≠ 10 ∧ b ≤ 127 := by decide

theorem trim_space_digits (d : List UInt8)
    (hd : ∀ b ∈ d, 48 ≤ b.toNat ∧ b.toNat ≤ 57) :
    asciiTrimBytes (32 :: d) = d := by
  unfold asciiTrimBytes
  rw [List.dropWhile_cons]
  rw [if_pos (by decide)]
  rw [dropWhile_ws_eq_self d
    (fun b hb => digit_not_ws b (hd b (List.mem_of_mem_head? hb)))]
  rw [dropWhile_ws_eq_self d.reverse
    (fun b hb => digit_not_ws b (hd b
      (by rw [List.head?_reverse] at hb; exact List.mem_of_mem_getLast? hb)))]
  exact List.reverse_reverse d

theorem parseLspHeaders_header (n : Nat) (p : List UInt8) :
    parseLspHeaders ((asciiBytes "Content-Length: " ++ natDecimal n)
        ++ 13 :: 10 :: 13 :: 10 :: p)
      = some (n, (asciiBytes "Content-Length: " ++ natDecimal n).length + 4) := by
  have hd := natDecimal_digit n
  have hdne := natDecimal_ne_nil n
  have hH13 : ∀ b ∈ asciiBytes "Content-Length: " ++ natDecimal n, b ≠ 13 := by
    intro b hb
    rcases List.mem_append.mp hb with h1 | h2
    · exact (cl32_facts b h1).1
    · exact digit_ne_13 b (hd b h2)
  have hH10 : ∀ b ∈ asciiBytes "Content-Length: " ++ natDecimal n, b ≠ 10 := by
    intro b hb
    rcases List.mem_append.mp hb with h1 | h2
    · exact (cl32_facts b h1).2.1
    · exact digit_ne_10 b (hd b h2)
  have hH127 : ∀ b ∈ asciiBytes "Content-Length: " ++ natDecimal n, b ≤ 127 := by
    intro b hb
    rcases List.mem_append.mp hb with h1 | h2
    · exact (cl32_facts b h1).2.2
    · exact digit_le_127 b (hd b h2)
  unfold parseLspHeaders
  rw [findSep_header _ p hH13]
  dsimp only
  rw [List.take_left]
  rw [utf8Valid_of_ascii _ hH127]
  simp only [if_true]
  have hlast : (asciiBytes "Content-Length: " ++ natDecimal n).getLast? ≠ some 13 := by
    rw [List.getLast?_append]
    cases hg : (natDecimal n).getLast? with
    | none => exact absurd (List.getLast?_eq_none_iff.mp hg) hdne
    | some b =>
      have hb := hd b (List.mem_of_mem_getLast? hg)
      simp only [Option.or_some]
      intro hx
      injection hx with hx
      exact digit_ne_13 b hb hx
  have hh67 : (asciiBytes "Content-Length: " ++ natDecimal n).head? = some 67 := rfl
  rw [linesBytes_single _
    (by
      intro hx
      rw [hx] at hh67
      exact Option.noConfusion hh67)
    hH10 hlast]
  unfold findContentLength
  have hhead : ∀ b, (asciiBytes "Content-Length: " ++ natDecimal n).head? = some b →
      isTrimWsByte b = false := by
    intro b hb
    have : (asciiBytes "Content-Length: " ++ natDecimal n).head? = some 67 := rfl
    rw [this] at hb
    injection hb with hb
    rw [← hb]
    decide
  have hlastws : ∀ b, (asciiBytes "Content-Length: " ++ natDecimal n).getLast? = some b →
      isTrimWsByte b = false := by
    intro b hb
    rw [List.getLast?_append] at hb
    cases hg : (natDecimal n).getLast? with
    | none => exact absurd (List.getLast?_eq_none_iff.mp hg) hdne
    | some c =>
      rw [hg] at hb
      simp only [Option.or_some] at hb
      injection hb with hb
      rw [← hb]
      exact digit_not_ws c (hd c (List.mem_of_mem_getLast? hg))
  rw [trim_eq_self _ hhead hlastws]
  dsimp only
  have hshape : asciiBytes "Content-Length: " ++ natDecimal n
      = CONTENT_LENGTH_BYTES ++ (32 :: natDecimal n) := by
    rw [cl32_eq, List.append_assoc]
    rfl
  have hpref : CONTENT_LENGTH_BYTES.isPrefixOf
      (asciiBytes "Content-Length: " ++ natDecimal n) = true := by
    rw [List.isPrefixOf_iff_prefix, hshape]
    exact List.prefix_append _ _
  rw [hpref]
  simp only [if_true]
  have hdrop : (asciiBytes "Content-Length: " ++ natDecimal n).drop
      CONTENT_LENGTH_BYTES.length = 32 :: natDecimal n := by
    rw [hshape]
    exact List.drop_left _ _
  rw [hdrop]
  rw [trim_space_digits _ hd]
  rw [parseUsizeBytes_natDecimal]

end Transport

namespace Transport

theorem decodeLsp_roundTrip {J : Type} (par : List UInt8 → Option J) (v : J)
    (p : List UInt8) (hpar : par p = some v) :
    decodeLsp par none (encodeBytes FramingFormat.Lsp p)
      = (Except.ok (some v), none, []) := by
  have hbuf : encodeBytes FramingFormat.Lsp p
      = (asciiBytes "Content-Length: " ++ natDecimal p.length)
          ++ 13 :: 10 :: 13 :: 10 :: p := by
    unfold encodeBytes
    rw [List.append_assoc]
    rfl
  unfold decodeLsp
  rw [hbuf]
  show decodeLspAux par (1 + 1) none _ = _
  simp only [decodeLspAux]
  rw [parseLspHeaders_header p.length p]
  dsimp only
  have hdrop : ((asciiBytes "Content-Length: " ++ natDecimal p.length)
        ++ 13 :: 10 :: 13 :: 10 :: p).drop
          ((asciiBytes "Content-Length: " ++ natDecimal p.length).length + 4) = p := by
    rw [show (13 : UInt8) :: 10 :: 13 :: 10 :: p = [13, 10, 13, 10] ++ p from rfl,
      ← List.append_assoc]
    rw [show (asciiBytes "Content-Length: " ++ natDecimal p.length).length + 4
        = ((asciiBytes "Content-Length: " ++ natDecimal p.length) ++ [13, 10, 13, 10]).length
        by simp; omega]
    exact List.drop_left _ _
  rw [hdrop]
  rw [if_pos (Nat.le_refl p.length)]
  rw [List.take_length, List.drop_length]
  rw [hpar]

end Transport

namespace Transport

/-- C2: for every value `v` whose serde serialization parses back to `v`,
is non-empty, contains no raw newline byte, does not end in a carriage
return (serde output always satisfies these), and fits the configured line
limit, encoding in a format and decoding in the same format returns
exactly `v`, consuming the whole buffer: JSONL on a fresh JSONL state,
LSP on a fresh LSP state. -/
theorem encodeDecodeRoundTrip {J : Type} (par : List UInt8 → Option J)
    (ser : J → List UInt8) (v : J) (maxLength : Nat)
    (hpar : par (ser v) = some v)
    (hne : ser v ≠ [])
    (hnl : (10 : UInt8) ∉ ser v)
    (hcr : (ser v).getLast? ≠ some 13)
    (hlen : (ser v).length ≤ maxLength) :
    decodeJsonl par { nextIndex := 0, maxLength := maxLength, isDiscarding := false }
        (encodeBytes FramingFormat.JsonLines (ser v))
      = (Except.ok (some v),
          { nextIndex := 0, maxLength := maxLength, isDiscarding := false }, []) ∧
    decodeLsp par none (encodeBytes FramingFormat.Lsp (ser v))
      = (Except.ok (some v), none, []) :=
  ⟨decodeJsonl_roundTrip par v (ser v) maxLength hpar hne hnl hcr hlen,
   decodeLsp_roundTrip par v (ser v) hpar⟩

/-- Witness for C2 at the boolean serializer, value `true`, line limit 16. -/
theorem encodeDecodeRoundTrip_witness :
    (boolPar (boolSer true) = some true ∧ boolSer true ≠ [] ∧
      (10 : UInt8) ∉ boolSer true ∧ (boolSer true).getLast? ≠ some 13 ∧
      (boolSer true).length ≤ 16) ∧
    (decodeJsonl boolPar { nextIndex := 0, maxLength := 16, isDiscarding := false }
        (encodeBytes FramingFormat.JsonLines (boolSer true))
      = (Except.ok (some true),
          { nextIndex := 0, maxLength := 16, isDiscarding := false }, []) ∧
    decodeLsp boolPar none (encodeBytes FramingFormat.Lsp (boolSer true))
      = (Except.ok (some true), none, [])) :=
  ⟨⟨by decide, by decide, by decide, by decide, by decide⟩,
   encodeDecodeRoundTrip boolPar boolSer true 16 (by decide) (by decide) (by decide)
     (by decide) (by decide)⟩

end Transport
